import Mathlib

/-!
Verification development for the Milvus JSON import row decoder
(`internal/util/importutilv2/json/row_parser.go`).

The Go source is shallowly embedded below:

* `JValue` models the untyped input values produced by Go's JSON decoder
  with `UseNumber`: `nil`, `bool`, `json.Number` (kept as its literal text),
  `string`, `[]interface` (braces omitted) and `map[string]interface`.
  Go maps are modelled as association lists; a Go map always has distinct
  keys, which appears as `Nodup` hypotheses on the key lists where needed.
* Machine integers are modelled as `Nat`/`Int` with explicit range checks,
  mirroring `strconv.ParseInt`/`ParseUint` (base 0, bit-size bounded).
  Floating point rounding is not interpreted: a parsed `float32`/`float64`
  is represented by the accepted literal text, and `strconv.ParseFloat` is
  modelled as its syntax check (`validGoFloat`) plus its exact overflow
  range check (`floatRangeErr`, integer arithmetic on the literal's
  mantissa and exponent).  Digit-separating underscores and hexadecimal
  floats, which cannot occur in JSON numbers, are not modelled.
* `encoding/json.Unmarshal` into `interface` is modelled by the validity
  checker `jsonValid`; `encoding/json.Marshal` of decoded values is
  modelled by `jsonSerialize` (object keys sorted, Go's default escaping).
* Errors (`merr.WrapErrImportFailed(fmt.Sprintf(...))`) are modelled as an
  inductive `ImportError` whose constructors carry the data interpolated
  into the corresponding Go format string.
-/

set_option autoImplicit false

/-- Association-list lookup: first entry whose key equals `k` (Go map read). -/
def alistGet {α β : Type} [DecidableEq α] : List (α × β) → α → Option β
  | [], _ => none
  | (k', v) :: rest, k => if k' = k then some v else alistGet rest k

/-- Association-list insert-or-replace (Go map write). -/
def alistUpsert {α β : Type} [DecidableEq α] : List (α × β) → α → β → List (α × β)
  | [], k, v => [(k, v)]
  | (k', v') :: rest, k, v =>
    if k' = k then (k, v) :: rest else (k', v') :: alistUpsert rest k v

/-- Association-list key removal (Go `delete`). -/
def alistErase {α β : Type} [DecidableEq α] : List (α × β) → α → List (α × β)
  | [], _ => []
  | (k', v) :: rest, k =>
    if k' = k then alistErase rest k else (k', v) :: alistErase rest k

/-- Build a map from a slice, later entries overwriting earlier ones on key
collision; models `lo.KeyBy` and `lo.SliceToMap`. -/
def keyedMap {α κ β : Type} [DecidableEq κ] (key : α → κ) (val : α → β) (l : List α) :
    List (κ × β) :=
  l.foldl (fun acc x => alistUpsert acc (key x) (val x)) []

/-- Boolean success test for `Except`. -/
def exOk {ε α : Type} : Except ε α → Bool
  | .ok _ => true
  | .error _ => false

/-- Forget the error of an `Except`. -/
def exToOpt {ε α : Type} : Except ε α → Option α
  | .ok a => some a
  | .error _ => none

/-- The schema data types handled by the row decoder (`schemapb.DataType`).
`dNone` stands for `DataType_None`, the zero value obtained from a `nil`
field reference. -/
inductive DataType : Type
  | dNone
  | bool
  | int8
  | int16
  | int32
  | int64
  | float
  | double
  | string
  | varChar
  | binaryVector
  | floatVector
  | float16Vector
  | json
  | array
deriving DecidableEq

/-- Go runtime types reported by the `%T` format verb for the value shapes a
decoded JSON record can hold. -/
inductive GoType : Type
  | goNil
  | goBool
  | goNumber
  | goString
  | goSliceAny
  | goMapStringAny
deriving DecidableEq

/-- Untyped input value: what Go's JSON decoding with `UseNumber` produces.
Numbers keep their literal text (`json.Number`); maps are association
lists. -/
inductive JValue : Type
  | jnull
  | jbool (b : Bool)
  | jnum (s : String)
  | jstr (s : String)
  | jarr (xs : List JValue)
  | jobj (fields : List (String × JValue))

/-- The `%T` verb on an input value. -/
def goTypeOf : JValue → GoType
  | .jnull => .goNil
  | .jbool _ => .goBool
  | .jnum _ => .goNumber
  | .jstr _ => .goString
  | .jarr _ => .goSliceAny
  | .jobj _ => .goMapStringAny

/-- Typed array data (`schemapb.ScalarField`); int8/int16/int32 elements all
land in `intData` (the source widens them to `int32`).  Float entries keep
their accepted literal text. -/
inductive ScalarField : Type
  | boolData (l : List Bool)
  | intData (l : List Int)
  | longData (l : List Int)
  | floatData (l : List String)
  | doubleData (l : List String)
  | stringData (l : List String)
deriving DecidableEq

/-- Decoded field value.  Integer constructors record the width the source
narrows to (`int8(num)` etc.); `vFloat32`/`vFloat64` keep the accepted
literal text; `vBytes` holds the bytes of a JSON text; `vByteVec` a
`byte` slice; `vFloatVec` a `float32` slice as literal texts. -/
inductive Value : Type
  | vBool (b : Bool)
  | vInt8 (n : Int)
  | vInt16 (n : Int)
  | vInt32 (n : Int)
  | vInt64 (n : Int)
  | vFloat32 (s : String)
  | vFloat64 (s : String)
  | vString (s : String)
  | vBytes (s : String)
  | vByteVec (l : List Nat)
  | vFloatVec (l : List String)
  | vScalar (sf : ScalarField)
deriving DecidableEq

/-- Typed record: field ID to decoded value (Go `Row = map[int64]any`). -/
abbrev Row := List (Int × Value)

/-- Row lookup. -/
def rowGet (row : Row) (fid : Int) : Option Value := alistGet row fid

/-- Row write. -/
def rowUpsert (row : Row) (fid : Int) (v : Value) : Row := alistUpsert row fid v

/-- The error kinds of `strconv`: syntax and range failures, carrying the
offending literal. -/
inductive NumError : Type
  | syntaxErr (s : String)
  | rangeErr (s : String)
deriving DecidableEq

/-- Errors returned by the row decoder.  Each constructor corresponds to one
`WrapErrImportFailed` site (or an error bubbled up from `strconv` /
`encoding/json`), carrying the values interpolated into the Go message. -/
inductive ImportError : Type
  | errVectorField
  | errDimNotFound
  | errPrimaryKeyNotFound
  | invalidFormat
  | autoIDNoNeedProvide (pkName : String)
  | dynamicExplicit (key : String)
  | fieldNotDefined (key : String)
  | fieldMissed (fieldName : String)
  | typeError (expected : DataType) (fieldName : String) (gotType : GoType) (gotValue : JValue)
  | dimError (expectedDim : Nat) (fieldName : String) (dtype : DataType) (actualDim : Nat)
  | arrayEleTypeError (eleType : DataType) (gotType : GoType) (gotValue : JValue)
  | numError (e : NumError)
  | jsonUnmarshalError (s : String)
  | unsupportedDataType (t : DataType)
  | unsupportedArrayEleType (t : DataType)

/-! ### strconv: integer parsing (`ParseInt`/`ParseUint`, base 0) -/

/-- Numeric value of a digit character, accepting both letter cases. -/
def digitVal (c : Char) : Option Nat :=
  if '0' ≤ c ∧ c ≤ '9' then some (c.toNat - '0'.toNat)
  else if 'a' ≤ c ∧ c ≤ 'z' then some (c.toNat - 'a'.toNat + 10)
  else if 'A' ≤ c ∧ c ≤ 'Z' then some (c.toNat - 'A'.toNat + 10)
  else none

/-- Accumulate digits in the given base; fails on an empty digit string or a
character that is not a digit below the base. -/
def parseDigits (base : Nat) : List Char → Nat → Option Nat
  | [], acc => some acc
  | c :: rest, acc =>
    match digitVal c with
    | some d => if d < base then parseDigits base rest (acc * base + d) else none
    | none => none

/-- Base detection for `strconv` base 0: `0x`/`0X` hex, `0b`/`0B` binary,
`0o`/`0O` octal (each requiring at least one digit after the marker, i.e.
total length at least 3), a bare leading `0` meaning octal, else decimal. -/
def detectBase : List Char → Nat × List Char
  | '0' :: c :: rest =>
    if (c = 'x' ∨ c = 'X') ∧ rest ≠ [] then (16, rest)
    else if (c = 'b' ∨ c = 'B') ∧ rest ≠ [] then (2, rest)
    else if (c = 'o' ∨ c = 'O') ∧ rest ≠ [] then (8, rest)
    else (8, '0' :: c :: rest)
  | ['0'] => (8, ['0'])
  | cs => (10, cs)

/-- Model of `strconv.ParseUint(s, 0, bits)`: no sign, base detection as
above, magnitude below `2 ^ bits`.  (Digit-separating underscores are not
modelled; they cannot occur in JSON numbers.) -/
def goParseUint (s : String) (bits : Nat) : Except NumError Nat :=
  let (base, ds) := detectBase s.data
  match ds with
  | [] => .error (.syntaxErr s)
  | _ =>
    match parseDigits base ds 0 with
    | none => .error (.syntaxErr s)
    | some n => if n < 2 ^ bits then .ok n else .error (.rangeErr s)

/-- Model of `strconv.ParseInt(s, 0, bits)`: optional sign, then an unsigned
parse, range-checked against the signed `bits`-bit bounds. -/
def goParseInt (s : String) (bits : Nat) : Except NumError Int :=
  let (neg, cs) : Bool × List Char :=
    match s.data with
    | '+' :: rest => (false, rest)
    | '-' :: rest => (true, rest)
    | rest => (false, rest)
  let (base, ds) := detectBase cs
  match ds with
  | [] => .error (.syntaxErr s)
  | _ =>
    match parseDigits base ds 0 with
    | none => .error (.syntaxErr s)
    | some n =>
      if neg then
        if n ≤ 2 ^ (bits - 1) then .ok (-(n : Int)) else .error (.rangeErr s)
      else
        if n < 2 ^ (bits - 1) then .ok (n : Int) else .error (.rangeErr s)

/-! ### strconv: float syntax (`ParseFloat`) -/

/-- Digit test. -/
def isDigitCh (c : Char) : Bool := '0' ≤ c && c ≤ '9'

/-- Split a leading run of decimal digits off a character list. -/
def takeDigits : List Char → List Char × List Char
  | [] => ([], [])
  | c :: rest =>
    if isDigitCh c then
      let (d, r) := takeDigits rest
      (c :: d, r)
    else ([], c :: rest)

/-- Exponent tail of a float literal: optional sign then at least one digit,
consuming the whole remainder. -/
def expTailOk (cs : List Char) : Bool :=
  let cs' : List Char :=
    match cs with
    | '+' :: rest => rest
    | '-' :: rest => rest
    | rest => rest
  let (d, r) := takeDigits cs'
  decide (d ≠ []) && decide (r = [])

/-- The syntax accepted by `strconv.ParseFloat`: optional sign, then
`inf`/`infinity`/`nan` (any letter case) or a decimal mantissa with at
least one digit and an optional exponent.  (The range check is modelled
separately by `floatRangeErr`; the numeric value itself stays
uninterpreted.) -/
def validGoFloat (s : String) : Bool :=
  let cs : List Char :=
    match s.data with
    | '+' :: rest => rest
    | '-' :: rest => rest
    | rest => rest
  let low := cs.map Char.toLower
  if low = ['i', 'n', 'f'] then true
  else if low = ['i', 'n', 'f', 'i', 'n', 'i', 't', 'y'] then true
  else if low = ['n', 'a', 'n'] then true
  else
    let (ip, r1) := takeDigits cs
    let (fp, r2) : List Char × List Char :=
      match r1 with
      | '.' :: rest => takeDigits rest
      | _ => ([], r1)
    if ip = [] ∧ fp = [] then false
    else
      match r2 with
      | [] => true
      | 'e' :: rest => expTailOk rest
      | 'E' :: rest => expTailOk rest
      | _ => false

/-- Signed value of an exponent digit string. -/
def expValue (cs : List Char) : Int :=
  match cs with
  | '+' :: rest => ((parseDigits 10 rest 0).getD 0 : Int)
  | '-' :: rest => -((parseDigits 10 rest 0).getD 0 : Int)
  | rest => ((parseDigits 10 rest 0).getD 0 : Int)

/-- Decompose an accepted decimal float literal (sign already stripped)
into its mantissa digits (integer and fraction parts concatenated), the
number of fraction digits, and the signed exponent; the literal's exact
value is `mantissa * 10 ^ (exponent - fractionDigits)`. -/
def floatParts (cs : List Char) : List Char × Nat × Int :=
  let (ip, r1) := takeDigits cs
  let (fp, r2) : List Char × List Char :=
    match r1 with
    | '.' :: rest => takeDigits rest
    | _ => ([], r1)
  let e : Int :=
    match r2 with
    | 'e' :: rest => expValue rest
    | 'E' :: rest => expValue rest
    | _ => 0
  (ip ++ fp, fp.length, e)

/-- Exact overflow threshold of `strconv.ParseFloat`: conversion rounds to
nearest with ties to even, so a literal overflows binary32/binary64 (and
`ParseFloat` reports `ErrRange`) exactly when its magnitude reaches the
midpoint between the largest finite value and the next power of two (the
midpoint itself rounds up, to the even candidate). -/
def floatOverflowThreshold (bits : Nat) : Nat :=
  if bits = 32 then 2 ^ 128 - 2 ^ 103 else 2 ^ 1024 - 2 ^ 970

/-- A literal below `10 ^ 38` (resp. `10 ^ 308`) is certainly below the
overflow threshold. -/
def floatNoOverflowDigits (bits : Nat) : Nat := if bits = 32 then 38 else 308

/-- Whether `strconv.ParseFloat` reports a range error for a syntactically
valid literal: the exact value `m * 10 ^ (e - f)` reaches the overflow
threshold of the requested bit size.  The exponent comparisons are clamped
the way Go's converter clamps an obviously overflowing decimal point
position, which keeps the arithmetic bounded without changing the
verdict.  Underflow returns zero without an error in Go, so it has no
counterpart here; `inf`/`nan` literals carry no range error. -/
def floatRangeErr (s : String) (bits : Nat) : Bool :=
  let cs : List Char :=
    match s.data with
    | '+' :: rest => rest
    | '-' :: rest => rest
    | rest => rest
  let low := cs.map Char.toLower
  if low = ['i', 'n', 'f'] ∨ low = ['i', 'n', 'f', 'i', 'n', 'i', 't', 'y'] ∨
      low = ['n', 'a', 'n'] then false
  else
    let (md, f, e) := floatParts cs
    let m := (parseDigits 10 md 0).getD 0
    if m = 0 then false
    else
      let scale : Int := e - (f : Int)
      let up : Int := (md.length : Int) + scale
      if ((floatNoOverflowDigits bits : Int) + 1) ≤ up then
        if (400 : Int) ≤ scale then true
        else if (0 : Int) ≤ scale then
          decide (floatOverflowThreshold bits ≤ m * 10 ^ scale.toNat)
        else
          decide (floatOverflowThreshold bits * 10 ^ (-scale).toNat ≤ m)
      else false

/-- Model of `strconv.ParseFloat(s, bits)`: syntax check, then the
overflow range check; the accepted literal text itself is kept as the
value (rounding is not interpreted). -/
def goParseFloat (s : String) (bits : Nat) : Except NumError String :=
  if validGoFloat s then
    if floatRangeErr s bits then .error (.rangeErr s) else .ok s
  else .error (.syntaxErr s)

/-! ### encoding/json: validity of a JSON text (`json.Unmarshal` model) -/

/-- The `\x7b` character (left curly bracket). -/
def lbrace : Char := Char.ofNat 123

/-- The `\x7d` character (right curly bracket). -/
def rbrace : Char := Char.ofNat 125

/-- JSON insignificant whitespace. -/
def isJsonWs (c : Char) : Bool := c = ' ' || c = '\t' || c = '\n' || c = '\r'

/-- Drop leading JSON whitespace. -/
def skipWs : List Char → List Char
  | [] => []
  | c :: rest => if isJsonWs c then skipWs rest else c :: rest

/-- Hex-digit test. -/
def isHexCh (c : Char) : Bool :=
  isDigitCh c || ('a' ≤ c && c ≤ 'f') || ('A' ≤ c && c ≤ 'F')

/-- Validate the remainder of a JSON string after the opening quote;
returns the text following the closing quote. -/
def jStringRest : List Char → Option (List Char)
  | [] => none
  | '"' :: rest => some rest
  | '\\' :: e :: rest =>
    if e = '"' ∨ e = '\\' ∨ e = '/' ∨ e = 'b' ∨ e = 'f' ∨ e = 'n' ∨ e = 'r' ∨ e = 't' then
      jStringRest rest
    else if e = 'u' then
      match rest with
      | h1 :: h2 :: h3 :: h4 :: rest' =>
        if isHexCh h1 && isHexCh h2 && isHexCh h3 && isHexCh h4 then jStringRest rest'
        else none
      | _ => none
    else none
  | c :: rest => if c.toNat < 32 then none else jStringRest rest

/-- Validate the tail of a JSON number after the integer part: optional
fraction and exponent; returns the remaining text. -/
def jNumTail (cs : List Char) : Option (List Char) :=
  let afterFrac : Option (List Char) :=
    match cs with
    | '.' :: rest =>
      let (d, r) := takeDigits rest
      if d = [] then none else some r
    | _ => some cs
  match afterFrac with
  | none => none
  | some cs' =>
    match cs' with
    | 'e' :: rest =>
      let rest' : List Char :=
        match rest with
        | '+' :: r => r
        | '-' :: r => r
        | r => r
      let (d, r) := takeDigits rest'
      if d = [] then none else some r
    | 'E' :: rest =>
      let rest' : List Char :=
        match rest with
        | '+' :: r => r
        | '-' :: r => r
        | r => r
      let (d, r) := takeDigits rest'
      if d = [] then none else some r
    | r => some r

/-- Validate a JSON number starting at `cs` (JSON grammar: optional minus,
`0` or a nonzero-led digit run, optional fraction/exponent). -/
def jNumber (cs : List Char) : Option (List Char) :=
  let cs1 : List Char :=
    match cs with
    | '-' :: rest => rest
    | rest => rest
  match cs1 with
  | '0' :: rest => jNumTail rest
  | c :: rest =>
    if isDigitCh c then
      let (_, r) := takeDigits rest
      jNumTail r
    else none
  | [] => none

mutual

/-- Validate one JSON value; fuel bounds the nesting recursion. -/
def jValueRest : Nat → List Char → Option (List Char)
  | 0, _ => none
  | fuel + 1, cs =>
    match skipWs cs with
    | [] => none
    | '"' :: rest => jStringRest rest
    | 't' :: 'r' :: 'u' :: 'e' :: rest => some rest
    | 'f' :: 'a' :: 'l' :: 's' :: 'e' :: rest => some rest
    | 'n' :: 'u' :: 'l' :: 'l' :: rest => some rest
    | '[' :: rest => jArrRest fuel rest
    | c :: rest =>
      if c = lbrace then jObjRest fuel rest
      else if c = '-' ∨ isDigitCh c then jNumber (c :: rest)
      else none

/-- Validate the inside of a JSON array after `[`. -/
def jArrRest : Nat → List Char → Option (List Char)
  | 0, _ => none
  | fuel + 1, cs =>
    match skipWs cs with
    | ']' :: rest => some rest
    | cs' =>
      match jValueRest fuel cs' with
      | none => none
      | some r => jArrMore fuel r

/-- After one array element: `,` then another element, or `]`. -/
def jArrMore : Nat → List Char → Option (List Char)
  | 0, _ => none
  | fuel + 1, cs =>
    match skipWs cs with
    | ']' :: rest => some rest
    | ',' :: rest =>
      match jValueRest fuel rest with
      | none => none
      | some r => jArrMore fuel r
    | _ => none

/-- Validate the inside of a JSON object after the opening brace. -/
def jObjRest : Nat → List Char → Option (List Char)
  | 0, _ => none
  | fuel + 1, cs =>
    match skipWs cs with
    | c :: rest =>
      if c = rbrace then some rest
      else if c = '"' then
        match jMember fuel rest with
        | none => none
        | some r => jObjMore fuel r
      else none
    | [] => none

/-- After a member's opening quote: rest of key string, `:`, value. -/
def jMember : Nat → List Char → Option (List Char)
  | 0, _ => none
  | fuel + 1, cs =>
    match jStringRest cs with
    | none => none
    | some r =>
      match skipWs r with
      | ':' :: rest => jValueRest fuel rest
      | _ => none

/-- After one object member: `,` then another member, or the closing brace. -/
def jObjMore : Nat → List Char → Option (List Char)
  | 0, _ => none
  | fuel + 1, cs =>
    match skipWs cs with
    | c :: rest =>
      if c = rbrace then some rest
      else if c = ',' then
        match skipWs rest with
        | c' :: rest' => if c' = '"' then
            match jMember fuel rest' with
            | none => none
            | some r => jObjMore fuel r
          else none
        | [] => none
      else none
    | [] => none

end

/-- Model of `json.Unmarshal(data, new(interface))` succeeding: the text is
one well-formed JSON value with only trailing whitespace.  The fuel is
generous; nesting depth is bounded by the text length. -/
def jsonValid (s : String) : Bool :=
  match jValueRest (4 * s.data.length + 8) s.data with
  | none => false
  | some rest => (skipWs rest).isEmpty

/-! ### encoding/json: serialization (`json.Marshal` model) -/

/-- Go's default JSON string escaping: quote, backslash, the short escapes
for newline/carriage-return/tab, `\u00XX` for other control characters,
and HTML-safe escaping of angle brackets, ampersand, U+2028 and U+2029. -/
def escapeChar (c : Char) : String :=
  if c = '"' then "\\\""
  else if c = '\\' then "\\\\"
  else if c = '\n' then "\\n"
  else if c = '\r' then "\\r"
  else if c = '\t' then "\\t"
  else if c.toNat < 32 then
    let hex := fun (n : Nat) =>
      if n < 10 then String.singleton (Char.ofNat ('0'.toNat + n))
      else String.singleton (Char.ofNat ('a'.toNat + n - 10))
    "\\u00" ++ hex (c.toNat / 16) ++ hex (c.toNat % 16)
  else if c = '<' then "\\u003c"
  else if c = '>' then "\\u003e"
  else if c = '&' then "\\u0026"
  else if c.toNat = 8232 then "\\u2028"
  else if c.toNat = 8233 then "\\u2029"
  else String.singleton c

/-- Serialize a string as a JSON string literal. -/
def quoteJString (s : String) : String :=
  "\"" ++ String.join (s.data.map escapeChar) ++ "\""

/-- Key order on object members (Go sorts map keys when marshalling). -/
def pairLE (a b : String × JValue) : Prop := a.1 ≤ b.1

instance : DecidableRel pairLE := fun a b => inferInstanceAs (Decidable (a.1 ≤ b.1))

instance : IsTotal (String × JValue) pairLE := ⟨fun a b => le_total a.1 b.1⟩

instance : IsTrans (String × JValue) pairLE := ⟨fun _ _ _ h1 h2 => le_trans h1 h2⟩

/-- Strict key order on object members, used to compare sorted member
lists. -/
def pairLT (a b : String × JValue) : Prop := a.1 < b.1

instance : IsAntisymm (String × JValue) pairLT :=
  ⟨fun _ _ h1 h2 => absurd h2 (lt_asymm h1)⟩

/-- Sort object members by key. -/
def sortPairs (l : List (String × JValue)) : List (String × JValue) :=
  List.insertionSort pairLE l

/-- Model of `json.Marshal` on a decoded value: `json.Number` marshals as
its literal text, maps marshal with keys in sorted order. -/
def jsonSerialize (v : JValue) : String :=
  match v with
  | .jnull => "null"
  | .jbool b => if b then "true" else "false"
  | .jnum s => s
  | .jstr s => quoteJString s
  | .jarr xs =>
    "[" ++ String.intercalate "," (xs.attach.map fun x => jsonSerialize x.1) ++ "]"
  | .jobj fields =>
    "\x7b" ++
      String.intercalate ","
        ((sortPairs fields).attach.map fun x =>
          quoteJString x.1.1 ++ ":" ++ jsonSerialize x.1.2) ++
      "\x7d"
termination_by sizeOf v
decreasing_by
  · have h := List.sizeOf_lt_of_mem x.2
    simp only [JValue.jarr.sizeOf_spec]
    omega
  · have hx := x.2
    simp only [sortPairs] at hx
    have hmem := (List.perm_insertionSort pairLE _).mem_iff.mp hx
    have h := List.sizeOf_lt_of_mem hmem
    have h2 : sizeOf x.1.2 < sizeOf x.1 := by
      obtain ⟨a, b⟩ := x.1
      simp only [Prod.mk.sizeOf_spec]
      omega
    simp only [JValue.jobj.sizeOf_spec]
    omega

/-! ### Schema model -/

/-- Field descriptor (`schemapb.FieldSchema`), restricted to the attributes
the row decoder reads.  The dimensionality stands for the `dim` type
parameter (`none` when unspecified). -/
structure FieldSchema where
  fieldID : Int
  name : String
  dataType : DataType
  elementType : DataType := .dNone
  isPrimaryKey : Bool := false
  autoID : Bool := false
  isDynamic : Bool := false
  dim : Option Nat := none
deriving DecidableEq

/-- Collection schema (`schemapb.CollectionSchema`), restricted to its field
list. -/
structure CollectionSchema where
  fields : List FieldSchema
deriving DecidableEq

/-- Vector data types. -/
def isVectorType : DataType → Bool
  | .binaryVector => true
  | .floatVector => true
  | .float16Vector => true
  | _ => false

/-- Modelled from the spec: `typeutil.GetVectorFieldSchema` (not under
`src/`) locates exactly one vector-typed field, failing otherwise
("Locate exactly one vector-typed field ... Fails ... if no vector field
exists"). -/
def getVectorFieldSchema (s : CollectionSchema) : Except ImportError FieldSchema :=
  match s.fields.filter (fun f => isVectorType f.dataType) with
  | [v] => .ok v
  | _ => .error .errVectorField

/-- Modelled from the spec: `typeutil.GetDim` (not under `src/`) retrieves
the vector field's dimensionality attribute as an integer, failing when it
is unspecified. -/
def getDim (f : FieldSchema) : Except ImportError Nat :=
  match f.dim with
  | some d => .ok d
  | none => .error .errDimNotFound

/-- Modelled from the spec: `typeutil.GetPrimaryFieldSchema` (not under
`src/`) locates the designated primary-key field, failing when absent. -/
def getPrimaryFieldSchema (s : CollectionSchema) : Except ImportError FieldSchema :=
  match s.fields.find? (fun f => f.isPrimaryKey) with
  | some f => .ok f
  | none => .error .errPrimaryKeyNotFound

/-- Modelled from the spec: `typeutil.GetDynamicField` (not under `src/`)
returns the catch-all field marked dynamic, if any. -/
def getDynamicField (s : CollectionSchema) : Option FieldSchema :=
  s.fields.find? (fun f => f.isDynamic)

/-- The Schema Index (Go struct `rowParser`). -/
structure rowParser where
  dim : Nat
  id2Field : List (Int × FieldSchema)
  name2FieldID : List (String × Int)
  pkField : FieldSchema
  dynamicField : Option FieldSchema

/-- Schema Index construction (Go `NewRowParser`). -/
def NewRowParser (schema : CollectionSchema) : Except ImportError rowParser := do
  let id2Field := keyedMap (fun f => f.fieldID) (fun f => f) schema.fields
  let vecField ← getVectorFieldSchema schema
  let dim ← getDim vecField
  let pkField ← getPrimaryFieldSchema schema
  let base := keyedMap (fun f => f.name) (fun f => f.fieldID) schema.fields
  let n1 := if pkField.autoID then alistErase base pkField.name else base
  let dynamicField := getDynamicField schema
  let n2 :=
    match dynamicField with
    | some df => alistErase n1 df.name
    | none => n1
  return {
    dim := dim
    id2Field := id2Field
    name2FieldID := n2
    pkField := pkField
    dynamicField := dynamicField }

/-- Declared type of the field with the given ID; a missing entry behaves
like Go's `nil.GetDataType()`, i.e. `DataType_None`. -/
def rowParser.fieldTypeOf (r : rowParser) (fid : Int) : DataType :=
  match alistGet r.id2Field fid with
  | some f => f.dataType
  | none => .dNone

/-- Name of the field with the given ID (empty for a missing entry). -/
def rowParser.fieldNameOf (r : rowParser) (fid : Int) : String :=
  match alistGet r.id2Field fid with
  | some f => f.name
  | none => ""

/-- Declared element type of the field with the given ID. -/
def rowParser.elemTypeOf (r : rowParser) (fid : Int) : DataType :=
  match alistGet r.id2Field fid with
  | some f => f.elementType
  | none => .dNone

/-- Go `rowParser.wrapTypeError`. -/
def rowParser.wrapTypeError (r : rowParser) (v : JValue) (fid : Int) : ImportError :=
  .typeError (r.fieldTypeOf fid) (r.fieldNameOf fid) (goTypeOf v) v

/-- Go `rowParser.wrapDimError`. -/
def rowParser.wrapDimError (r : rowParser) (actualDim : Nat) (fid : Int) : ImportError :=
  .dimError r.dim (r.fieldNameOf fid) (r.fieldTypeOf fid) actualDim

/-- Go `rowParser.wrapArrayValueTypeError`; note the source passes the whole
array as the offending value. -/
def rowParser.wrapArrayValueTypeError (_r : rowParser) (v : JValue) (eleType : DataType) :
    ImportError :=
  .arrayEleTypeError eleType (goTypeOf v) v

/-- Element extraction for arrays of booleans. -/
def extBool : JValue → Option (Except NumError Bool)
  | .jbool b => some (.ok b)
  | _ => none

/-- Element extraction for int8/int16/int32 array elements: the source
parses each with `strconv.ParseInt(value, 0, 32)` regardless of the
declared narrow width. -/
def extInt32 : JValue → Option (Except NumError Int)
  | .jnum s => some (goParseInt s 32)
  | _ => none

/-- Element extraction for int64 array elements. -/
def extInt64 : JValue → Option (Except NumError Int)
  | .jnum s => some (goParseInt s 64)
  | _ => none

/-- Element extraction for float32 values. -/
def extFloat32 : JValue → Option (Except NumError String)
  | .jnum s => some (goParseFloat s 32)
  | _ => none

/-- Element extraction for float64 values. -/
def extFloat64 : JValue → Option (Except NumError String)
  | .jnum s => some (goParseFloat s 64)
  | _ => none

/-- Element extraction for string values. -/
def extString : JValue → Option (Except NumError String)
  | .jstr s => some (.ok s)
  | _ => none

/-- Element extraction for unsigned 8-bit vector components
(`strconv.ParseUint(value, 0, 8)`). -/
def extUint8 : JValue → Option (Except NumError Nat)
  | .jnum s => some (goParseUint s 8)
  | _ => none

/-- The per-element loop of `arrayToFieldData`: first element of the wrong
runtime shape aborts with `wrapArrayValueTypeError`, which the source calls
on the whole array `arr`; a `strconv` failure propagates as-is. -/
def rowParser.elemSeq {γ : Type} (r : rowParser) (arr : List JValue) (eleType : DataType)
    (ext : JValue → Option (Except NumError γ)) :
    List JValue → Except ImportError (List γ)
  | [] => .ok []
  | x :: rest =>
    match ext x with
    | none => .error (r.wrapArrayValueTypeError (.jarr arr) eleType)
    | some (.error e) => .error (.numError e)
    | some (.ok v) => (r.elemSeq arr eleType ext rest).map (v :: ·)

/-- Go `rowParser.arrayToFieldData`. -/
def rowParser.arrayToFieldData (r : rowParser) (arr : List JValue) (eleType : DataType) :
    Except ImportError ScalarField :=
  match eleType with
  | .bool => (r.elemSeq arr eleType extBool arr).map .boolData
  | .int8 => (r.elemSeq arr eleType extInt32 arr).map .intData
  | .int16 => (r.elemSeq arr eleType extInt32 arr).map .intData
  | .int32 => (r.elemSeq arr eleType extInt32 arr).map .intData
  | .int64 => (r.elemSeq arr eleType extInt64 arr).map .longData
  | .float => (r.elemSeq arr eleType extFloat32 arr).map .floatData
  | .double => (r.elemSeq arr eleType extFloat64 arr).map .doubleData
  | .varChar => (r.elemSeq arr eleType extString arr).map .stringData
  | .string => (r.elemSeq arr eleType extString arr).map .stringData
  | t => .error (.unsupportedArrayEleType t)

/-- The per-element loop of the vector branches of `parseEntity`: here the
wrong-shape error is `wrapTypeError` on the offending element. -/
def rowParser.vecSeq {γ : Type} (r : rowParser) (fid : Int)
    (ext : JValue → Option (Except NumError γ)) :
    List JValue → Except ImportError (List γ)
  | [] => .ok []
  | x :: rest =>
    match ext x with
    | none => .error (r.wrapTypeError x fid)
    | some (.error e) => .error (.numError e)
    | some (.ok v) => (r.vecSeq fid ext rest).map (v :: ·)

/-- Go `rowParser.parseEntity`: dispatch on the declared data type, check
the runtime shape, narrow the value. -/
def rowParser.parseEntity (r : rowParser) (fid : Int) (obj : JValue) :
    Except ImportError Value :=
  match r.fieldTypeOf fid with
  | .bool =>
    match obj with
    | .jbool b => .ok (.vBool b)
    | _ => .error (r.wrapTypeError obj fid)
  | .int8 =>
    match obj with
    | .jnum s =>
      match goParseInt s 8 with
      | .ok n => .ok (.vInt8 n)
      | .error e => .error (.numError e)
    | _ => .error (r.wrapTypeError obj fid)
  | .int16 =>
    match obj with
    | .jnum s =>
      match goParseInt s 16 with
      | .ok n => .ok (.vInt16 n)
      | .error e => .error (.numError e)
    | _ => .error (r.wrapTypeError obj fid)
  | .int32 =>
    match obj with
    | .jnum s =>
      match goParseInt s 32 with
      | .ok n => .ok (.vInt32 n)
      | .error e => .error (.numError e)
    | _ => .error (r.wrapTypeError obj fid)
  | .int64 =>
    match obj with
    | .jnum s =>
      match goParseInt s 64 with
      | .ok n => .ok (.vInt64 n)
      | .error e => .error (.numError e)
    | _ => .error (r.wrapTypeError obj fid)
  | .float =>
    match obj with
    | .jnum s =>
      match goParseFloat s 32 with
      | .ok v => .ok (.vFloat32 v)
      | .error e => .error (.numError e)
    | _ => .error (r.wrapTypeError obj fid)
  | .double =>
    match obj with
    | .jnum s =>
      match goParseFloat s 64 with
      | .ok v => .ok (.vFloat64 v)
      | .error e => .error (.numError e)
    | _ => .error (r.wrapTypeError obj fid)
  | .binaryVector =>
    match obj with
    | .jarr arr =>
      if arr.length * 8 ≠ r.dim then .error (r.wrapDimError (arr.length * 8) fid)
      else (r.vecSeq fid extUint8 arr).map .vByteVec
    | _ => .error (r.wrapTypeError obj fid)
  | .floatVector =>
    match obj with
    | .jarr arr =>
      if arr.length ≠ r.dim then .error (r.wrapDimError arr.length fid)
      else (r.vecSeq fid extFloat32 arr).map .vFloatVec
    | _ => .error (r.wrapTypeError obj fid)
  | .float16Vector =>
    match obj with
    | .jarr arr =>
      if arr.length / 2 ≠ r.dim then .error (r.wrapDimError (arr.length / 2) fid)
      else (r.vecSeq fid extUint8 arr).map .vByteVec
    | _ => .error (r.wrapTypeError obj fid)
  | .string =>
    match obj with
    | .jstr s => .ok (.vString s)
    | _ => .error (r.wrapTypeError obj fid)
  | .varChar =>
    match obj with
    | .jstr s => .ok (.vString s)
    | _ => .error (r.wrapTypeError obj fid)
  | .json =>
    match obj with
    | .jstr s =>
      if jsonValid s then .ok (.vBytes s) else .error (.jsonUnmarshalError s)
    | .jobj m => .ok (.vBytes (jsonSerialize (.jobj m)))
    | _ => .error (r.wrapTypeError obj fid)
  | .array =>
    match obj with
    | .jarr arr => (r.arrayToFieldData arr (r.elemTypeOf fid)).map .vScalar
    | _ => .error (r.wrapTypeError obj fid)
  | t => .error (.unsupportedDataType t)

/-- The key/value loop of Go `rowParser.Parse`: route each pair to its
declared field or to the dynamic side buffer, failing fast. -/
def rowParser.parseLoop (r : rowParser) :
    List (String × JValue) → Row → List (String × JValue) →
    Except ImportError (Row × List (String × JValue))
  | [], row, dynVals => .ok (row, dynVals)
  | (k, v) :: rest, row, dynVals =>
    match alistGet r.name2FieldID k with
    | some fid =>
      match r.parseEntity fid v with
      | .ok data => r.parseLoop rest (rowUpsert row fid data) dynVals
      | .error e => .error e
    | none =>
      match r.dynamicField with
      | some df =>
        if k = df.name then .error (.dynamicExplicit k)
        else r.parseLoop rest row (dynVals ++ [(k, v)])
      | none => .error (.fieldNotDefined k)

/-- The required-field scan after the loop: first explicit field without an
entry in the row. -/
def findMissing (row : Row) : List (String × Int) → Option String
  | [] => none
  | (n, fid) :: rest => if (rowGet row fid).isSome then findMissing row rest else some n

/-- Go `rowParser.combineDynamicRow`: merge the side buffer into the
dynamic field's slot, or store the literal string of an empty object. -/
def rowParser.combineDynamicRow (r : rowParser) (dynVals : List (String × JValue))
    (row : Row) : Except ImportError Row :=
  let dfID : Int :=
    match r.dynamicField with
    | some df => df.fieldID
    | none => 0
  if dynVals.isEmpty then .ok (rowUpsert row dfID (.vString "\x7b\x7d"))
  else
    match r.parseEntity dfID (.jobj dynVals) with
    | .ok data => .ok (rowUpsert row dfID data)
    | .error e => .error e

/-- Go `rowParser.Parse`: the record decoder's single entry point. -/
def rowParser.Parse (r : rowParser) (raw : JValue) : Except ImportError Row :=
  match raw with
  | .jobj entries =>
    if (alistGet entries r.pkField.name).isSome && r.pkField.autoID then
      .error (.autoIDNoNeedProvide r.pkField.name)
    else
      match r.parseLoop entries [] [] with
      | .error e => .error e
      | .ok (row, dynVals) =>
        match findMissing row r.name2FieldID with
        | some n => .error (.fieldMissed n)
        | none =>
          match r.dynamicField with
          | none => .ok row
          | some _ => r.combineDynamicRow dynVals row
  | _ => .error .invalidFormat

/-! ### Derived predicates and concrete fixtures -/

/-- One key/value pair is acceptable to the decoding loop: a matched key
must coerce, an unmatched key requires a dynamic field and must differ from
its name. -/
def rowParser.entryOkB (r : rowParser) (kv : String × JValue) : Bool :=
  match alistGet r.name2FieldID kv.1 with
  | some fid => exOk (r.parseEntity fid kv.2)
  | none =>
    match r.dynamicField with
    | some df => decide (kv.1 ≠ df.name)
    | none => false

/-- The element extractor succeeds on this value. -/
def extOkB {γ : Type} (ext : JValue → Option (Except NumError γ)) (x : JValue) : Bool :=
  match ext x with
  | some (.ok _) => true
  | _ => false

/-- A key/value pair whose key matches a declared field coerces
successfully (vacuously true for unmatched keys). -/
def rowParser.coerceOkB (r : rowParser) (kv : String × JValue) : Bool :=
  match alistGet r.name2FieldID kv.1 with
  | some fid => exOk (r.parseEntity fid kv.2)
  | none => true

/-- Fixture: a non-auto int64 primary key. -/
def pkIntField : FieldSchema :=
  { fieldID := 1, name := "id", dataType := .int64, isPrimaryKey := true }

/-- Fixture: an auto-generated int64 primary key. -/
def autoPkField : FieldSchema :=
  { fieldID := 1, name := "id", dataType := .int64, isPrimaryKey := true, autoID := true }

/-- Fixture: a 2-dimensional float vector field. -/
def vecField : FieldSchema :=
  { fieldID := 2, name := "vec", dataType := .floatVector, dim := some 2 }

/-- Fixture: a dynamic JSON field named like Milvus's `$meta`. -/
def metaField : FieldSchema :=
  { fieldID := 3, name := "$meta", dataType := .json, isDynamic := true }

/-- Fixture: a binary vector field (dim 8). -/
def binVecField : FieldSchema :=
  { fieldID := 4, name := "bv", dataType := .binaryVector, dim := some 8 }

/-- Fixture: a half-precision float vector field (dim 8). -/
def fp16Field : FieldSchema :=
  { fieldID := 5, name := "hv", dataType := .float16Vector, dim := some 8 }

/-- Fixture: a float vector field (dim 8). -/
def fvecField8 : FieldSchema :=
  { fieldID := 6, name := "fv", dataType := .floatVector, dim := some 8 }

/-- Fixture: an int8 scalar field. -/
def int8Field : FieldSchema := { fieldID := 7, name := "i8", dataType := .int8 }

/-- Fixture: an array field with element type int8. -/
def arrInt8Field : FieldSchema :=
  { fieldID := 8, name := "a8", dataType := .array, elementType := .int8 }

/-- Fixture: a JSON-typed scalar field. -/
def jsonField : FieldSchema := { fieldID := 9, name := "js", dataType := .json }

/-- Fixture: an int16 scalar field. -/
def int16Field : FieldSchema := { fieldID := 10, name := "i16", dataType := .int16 }

/-- Fixture: an array field with element type int16. -/
def arrInt16Field : FieldSchema :=
  { fieldID := 11, name := "a16", dataType := .array, elementType := .int16 }

/-- Fixture: an array field with element type int32. -/
def arrInt32Field : FieldSchema :=
  { fieldID := 12, name := "a32", dataType := .array, elementType := .int32 }

/-- Fixture Schema Index holding the three vector encodings at dim 8. -/
def rVec : rowParser :=
  { dim := 8
    id2Field := [(4, binVecField), (5, fp16Field), (6, fvecField8)]
    name2FieldID := [("bv", 4), ("hv", 5), ("fv", 6)]
    pkField := pkIntField
    dynamicField := none }

/-- Fixture Schema Index with scalar/array integer fields and a JSON field. -/
def rArr : rowParser :=
  { dim := 2
    id2Field :=
      [(7, int8Field), (8, arrInt8Field), (9, jsonField), (10, int16Field),
       (11, arrInt16Field), (12, arrInt32Field)]
    name2FieldID :=
      [("i8", 7), ("a8", 8), ("js", 9), ("i16", 10), ("a16", 11), ("a32", 12)]
    pkField := pkIntField
    dynamicField := none }

/-- Fixture Schema Index with a non-auto primary key, a vector field and a
dynamic `$meta` field. -/
def rDyn : rowParser :=
  { dim := 2
    id2Field := [(1, pkIntField), (2, vecField), (3, metaField)]
    name2FieldID := [("id", 1), ("vec", 2)]
    pkField := pkIntField
    dynamicField := some metaField }

/-- Fixture Schema Index with an auto-generated primary key. -/
def rAuto : rowParser :=
  { dim := 2
    id2Field := [(1, autoPkField), (2, vecField)]
    name2FieldID := [("vec", 2)]
    pkField := autoPkField
    dynamicField := none }

/-- Fixture Schema Index without a dynamic field (two int64 fields). -/
def rNoDyn : rowParser :=
  { dim := 2
    id2Field :=
      [(1, pkIntField), (2, vecField),
       (20, { fieldID := 20, name := "a", dataType := .int64 }),
       (21, { fieldID := 21, name := "b", dataType := .int64 })]
    name2FieldID := [("id", 1), ("vec", 2), ("a", 20), ("b", 21)]
    pkField := pkIntField
    dynamicField := none }

/-- Fixture schema for exercising `NewRowParser` directly. -/
def sampleSchema : CollectionSchema :=
  ⟨[pkIntField, vecField, metaField]⟩

/-! ### Helper lemmas: association lists -/

theorem alistGet_eq_some_mem {α β : Type} [DecidableEq α] {l : List (α × β)} {k : α} {v : β}
    (h : alistGet l k = some v) : (k, v) ∈ l := by
  induction l with
  | nil => simp [alistGet] at h
  | cons p rest ih =>
    obtain ⟨k', v'⟩ := p
    by_cases hk : k' = k
    · subst hk
      simp [alistGet] at h
      simp [h]
    · simp [alistGet, hk] at h
      exact List.mem_cons_of_mem _ (ih h)

theorem alistGet_eq_none_iff {α β : Type} [DecidableEq α] {l : List (α × β)} {k : α} :
    alistGet l k = none ↔ ∀ p ∈ l, p.1 ≠ k := by
  induction l with
  | nil => simp [alistGet]
  | cons p rest ih =>
    obtain ⟨k', v'⟩ := p
    by_cases hk : k' = k
    · subst hk
      simp [alistGet]
    · simp [alistGet, hk, ih]

theorem alistGet_isSome_of_mem {α β : Type} [DecidableEq α] {l : List (α × β)} {k : α} {v : β}
    (h : (k, v) ∈ l) : (alistGet l k).isSome = true := by
  cases hg : alistGet l k with
  | some _ => rfl
  | none => exact absurd rfl (alistGet_eq_none_iff.mp hg (k, v) h)

theorem mem_alistGet_of_nodup {α β : Type} [DecidableEq α] {l : List (α × β)} {k : α} {v : β}
    (hnd : (l.map Prod.fst).Nodup) (h : (k, v) ∈ l) : alistGet l k = some v := by
  induction l with
  | nil => simp at h
  | cons p rest ih =>
    obtain ⟨k', v'⟩ := p
    simp only [List.map_cons, List.nodup_cons] at hnd
    rcases List.mem_cons.mp h with heq | hmem
    · rw [← heq]
      simp [alistGet]
    · have hne : k' ≠ k := by
        intro hkk
        subst hkk
        exact hnd.1 (List.mem_map.mpr ⟨(k', v), hmem, rfl⟩)
      simp [alistGet, hne]
      exact ih hnd.2 hmem

theorem alistGet_upsert_self {α β : Type} [DecidableEq α] (l : List (α × β)) (k : α) (v : β) :
    alistGet (alistUpsert l k v) k = some v := by
  induction l with
  | nil => simp [alistUpsert, alistGet]
  | cons p rest ih =>
    obtain ⟨k', v'⟩ := p
    by_cases hk : k' = k
    · simp [alistUpsert, hk, alistGet]
    · simp [alistUpsert, hk, alistGet, ih]

theorem alistGet_upsert_ne {α β : Type} [DecidableEq α] (l : List (α × β)) (k k' : α) (v : β)
    (h : k' ≠ k) : alistGet (alistUpsert l k v) k' = alistGet l k' := by
  have hkk : ¬k = k' := fun hh => h hh.symm
  induction l with
  | nil => simp [alistUpsert, alistGet, hkk]
  | cons p rest ih =>
    obtain ⟨k0, v0⟩ := p
    by_cases hk : k0 = k
    · simp [alistUpsert, hk, alistGet, hkk]
    · simp only [alistUpsert, if_neg hk, alistGet]
      by_cases hk2 : k0 = k'
      · simp [hk2]
      · simp [hk2, ih]

theorem alistGet_erase_self {α β : Type} [DecidableEq α] (l : List (α × β)) (k : α) :
    alistGet (alistErase l k) k = none := by
  induction l with
  | nil => rfl
  | cons p rest ih =>
    obtain ⟨k', v'⟩ := p
    by_cases hk : k' = k
    · simpa [alistErase, hk] using ih
    · simpa [alistErase, alistGet, hk] using ih

theorem alistGet_erase_ne {α β : Type} [DecidableEq α] (l : List (α × β)) (k k' : α)
    (h : k' ≠ k) : alistGet (alistErase l k) k' = alistGet l k' := by
  have hkk : ¬k = k' := fun hh => h hh.symm
  induction l with
  | nil => rfl
  | cons p rest ih =>
    obtain ⟨k0, v0⟩ := p
    by_cases hk : k0 = k
    · simp [alistErase, hk, alistGet, hkk, ih]
    · simp only [alistErase, if_neg hk, alistGet]
      by_cases hk2 : k0 = k'
      · simp [hk2]
      · simp [hk2, ih]

theorem mem_alistUpsert {α β : Type} [DecidableEq α] {l : List (α × β)} {k : α} {v : β}
    {q : α × β} (h : q ∈ alistUpsert l k v) : q ∈ l ∨ q = (k, v) := by
  induction l with
  | nil =>
    simp [alistUpsert] at h
    exact Or.inr h
  | cons p rest ih =>
    obtain ⟨k0, v0⟩ := p
    by_cases hk : k0 = k
    · simp only [alistUpsert, if_pos hk] at h
      rcases List.mem_cons.mp h with h1 | h1
      · exact Or.inr h1
      · exact Or.inl (List.mem_cons_of_mem _ h1)
    · simp only [alistUpsert, if_neg hk] at h
      rcases List.mem_cons.mp h with h1 | h1
      · exact Or.inl (by simp [h1])
      · rcases ih h1 with h2 | h2
        · exact Or.inl (List.mem_cons_of_mem _ h2)
        · exact Or.inr h2

theorem alistUpsert_keys_nodup {α β : Type} [DecidableEq α] (l : List (α × β)) (k : α) (v : β)
    (hnd : (l.map Prod.fst).Nodup) : ((alistUpsert l k v).map Prod.fst).Nodup := by
  induction l with
  | nil => simp [alistUpsert]
  | cons p rest ih =>
    obtain ⟨k0, v0⟩ := p
    simp only [List.map_cons, List.nodup_cons] at hnd
    by_cases hk : k0 = k
    · subst hk
      have hup : alistUpsert ((k0, v0) :: rest) k0 v = (k0, v) :: rest := by
        simp [alistUpsert]
      rw [hup]
      simp only [List.map_cons, List.nodup_cons]
      exact hnd
    · simp only [alistUpsert, if_neg hk, List.map_cons, List.nodup_cons]
      refine ⟨?_, ih hnd.2⟩
      intro hmem
      rcases List.mem_map.mp hmem with ⟨q, hq, hfst⟩
      rcases mem_alistUpsert hq with h1 | h1
      · exact hnd.1 (List.mem_map.mpr ⟨q, h1, hfst⟩)
      · exact hk (by rw [← hfst, h1])

/-! ### Helper lemmas: find?, filter, permutations -/

theorem find_eq_filter_head {α : Type} (p : α → Bool) (l : List α) :
    l.find? p = (l.filter p).head? := by
  induction l with
  | nil => rfl
  | cons a t ih =>
    cases h : p a with
    | true =>
      rw [List.find?_cons_of_pos t h, List.filter_cons_of_pos (by simp [h])]
      rfl
    | false =>
      rw [List.find?_cons_of_neg t (by simp [h]), List.filter_cons_of_neg (by simp [h])]
      exact ih

theorem perm_eq_of_length_le_one {α : Type} {l₁ l₂ : List α} (h : l₁.Perm l₂)
    (hlen : l₁.length ≤ 1) : l₁ = l₂ := by
  cases l₁ with
  | nil => exact (List.perm_nil.mp h.symm).symm
  | cons a t =>
    cases t with
    | nil => exact (List.perm_singleton.mp h.symm).symm
    | cons b t2 =>
      exfalso
      simp [List.length_cons] at hlen

theorem filter_length_le_one {α : Type} (p : α → Bool) (l : List α)
    (hexcl : l.Pairwise fun a b => ¬(p a = true ∧ p b = true)) :
    (l.filter p).length ≤ 1 := by
  induction l with
  | nil => simp
  | cons a t ih =>
    rcases List.pairwise_cons.mp hexcl with ⟨ha, ht⟩
    cases h : p a with
    | false => simpa [List.filter_cons, h] using ih ht
    | true =>
      have hnil : t.filter p = [] :=
        List.filter_eq_nil_iff.mpr fun b hb hpb => ha b hb ⟨h, hpb⟩
      simp [List.filter_cons, h, hnil]

theorem mem_eq_of_length_le_one {α : Type} {l : List α} (hlen : l.length ≤ 1) {a b : α}
    (ha : a ∈ l) (hb : b ∈ l) : a = b := by
  cases l with
  | nil => simp at ha
  | cons x t =>
    cases t with
    | nil =>
      simp at ha hb
      rw [ha, hb]
    | cons y t2 =>
      exfalso
      simp [List.length_cons] at hlen

theorem mem_snd_nodup_inj {α β : Type} {l : List (α × β)} (hnd : (l.map Prod.snd).Nodup)
    {a₁ a₂ : α} {b : β} (h₁ : (a₁, b) ∈ l) (h₂ : (a₂, b) ∈ l) : a₁ = a₂ := by
  have heq := List.inj_on_of_nodup_map hnd h₁ h₂ rfl
  exact congrArg Prod.fst heq

/-- Under distinct keys, `alistGet` is invariant under permutation of the
entry list. -/
theorem alistGet_perm {α β : Type} [DecidableEq α] {l₁ l₂ : List (α × β)} (h : l₁.Perm l₂)
    (hnd : (l₁.map Prod.fst).Nodup) (k : α) : alistGet l₁ k = alistGet l₂ k := by
  cases hg : alistGet l₁ k with
  | some v =>
    have hmem : (k, v) ∈ l₂ := h.mem_iff.mp (alistGet_eq_some_mem hg)
    have hnd₂ : (l₂.map Prod.fst).Nodup := ((h.map Prod.fst).nodup_iff).mp hnd
    exact (mem_alistGet_of_nodup hnd₂ hmem).symm
  | none =>
    cases hg₂ : alistGet l₂ k with
    | none => rfl
    | some v =>
      have hmem : (k, v) ∈ l₁ := h.mem_iff.mpr (alistGet_eq_some_mem hg₂)
      exact absurd rfl (alistGet_eq_none_iff.mp hg (k, v) hmem)

/-! ### Helper lemmas: keyedMap -/

theorem keyedMap_get {α κ β : Type} [DecidableEq κ] (key : α → κ) (val : α → β)
    (l : List α) (k : κ) :
    alistGet (keyedMap key val l) k =
      (l.reverse.find? fun x => decide (key x = k)).map val := by
  suffices h : ∀ init : List (κ × β),
      alistGet (l.foldl (fun acc x => alistUpsert acc (key x) (val x)) init) k =
        match l.reverse.find? fun x => decide (key x = k) with
        | some x => some (val x)
        | none => alistGet init k by
    have h2 := h []
    rw [keyedMap, h2]
    cases l.reverse.find? fun x => decide (key x = k) <;> simp [alistGet]
  intro init
  induction l generalizing init with
  | nil => simp [alistGet]
  | cons a t ih =>
    simp only [List.foldl_cons, List.reverse_cons]
    rw [List.find?_append, ih]
    cases hfind : t.reverse.find? (fun x => decide (key x = k)) with
    | some x => simp [Option.or]
    | none =>
      by_cases hk : key a = k
      · have hd : (List.find? (fun x => decide (key x = k)) [a]) = some a := by
          simp [List.find?, hk]
        simp only [hd, Option.or]
        rw [← hk]
        exact alistGet_upsert_self init (key a) (val a)
      · have hd : (List.find? (fun x => decide (key x = k)) [a]) = none := by
          simp [List.find?, hk]
        simp only [hd, Option.or]
        exact alistGet_upsert_ne init (key a) k (val a) fun hh => hk hh.symm

theorem keyedMap_keys_nodup {α κ β : Type} [DecidableEq κ] (key : α → κ) (val : α → β)
    (l : List α) : ((keyedMap key val l).map Prod.fst).Nodup := by
  suffices h : ∀ init : List (κ × β), (init.map Prod.fst).Nodup →
      ((l.foldl (fun acc x => alistUpsert acc (key x) (val x)) init).map Prod.fst).Nodup by
    exact h [] (by simp)
  intro init hinit
  induction l generalizing init with
  | nil => exact hinit
  | cons a t ih => exact ih _ (alistUpsert_keys_nodup _ _ _ hinit)

theorem keyedMap_get_iff {α κ β : Type} [DecidableEq κ] {key : α → κ} {val : α → β}
    {l : List α} {k : κ} {v : β} (hnd : (l.map key).Nodup) :
    alistGet (keyedMap key val l) k = some v ↔ ∃ x, x ∈ l ∧ key x = k ∧ val x = v := by
  rw [keyedMap_get]
  constructor
  · intro h
    cases hf : l.reverse.find? (fun x => decide (key x = k)) with
    | none =>
      rw [hf] at h
      simp at h
    | some x =>
      rw [hf] at h
      simp at h
      have hx := List.mem_of_find?_eq_some hf
      have hpx := List.find?_some hf
      simp at hpx
      exact ⟨x, List.mem_reverse.mp hx, hpx, h⟩
  · rintro ⟨x, hx, hkey, hval⟩
    have hrev : x ∈ l.reverse := List.mem_reverse.mpr hx
    cases hf : l.reverse.find? (fun x => decide (key x = k)) with
    | none =>
      have hnone := List.find?_eq_none.mp hf x hrev
      simp [hkey] at hnone
    | some y =>
      have hy := List.mem_of_find?_eq_some hf
      have hpy := List.find?_some hf
      simp at hpy
      have hxy : x = y := by
        have hyl : y ∈ l := List.mem_reverse.mp hy
        exact List.inj_on_of_nodup_map hnd hx hyl (by rw [hkey, hpy])
      simp [← hxy, hval]

/-! ### Helper lemmas: the decoding loop -/

theorem parseLoop_isOk_iff (r : rowParser) (entries : List (String × JValue)) (row : Row)
    (dynVals : List (String × JValue)) :
    exOk (r.parseLoop entries row dynVals) = true ↔ ∀ kv ∈ entries, r.entryOkB kv = true := by
  induction entries generalizing row dynVals with
  | nil => simp [rowParser.parseLoop, exOk]
  | cons kv rest ih =>
    obtain ⟨k, v⟩ := kv
    cases hk : alistGet r.name2FieldID k with
    | some fid =>
      cases hpe : r.parseEntity fid v with
      | ok data =>
        have he : r.entryOkB (k, v) = true := by simp [rowParser.entryOkB, hk, hpe, exOk]
        simp [rowParser.parseLoop, hk, hpe, List.forall_mem_cons, he, ih]
      | error e =>
        have he : r.entryOkB (k, v) = false := by simp [rowParser.entryOkB, hk, hpe, exOk]
        simp [rowParser.parseLoop, hk, hpe, exOk, List.forall_mem_cons, he]
    | none =>
      cases hd : r.dynamicField with
      | some df =>
        by_cases hname : k = df.name
        · subst hname
          simp [rowParser.parseLoop, rowParser.entryOkB, hk, hd, exOk, List.forall_mem_cons]
        · have he : r.entryOkB (k, v) = true := by
            simp [rowParser.entryOkB, hk, hd, hname]
          simp [rowParser.parseLoop, hk, hd, hname, List.forall_mem_cons, he, ih]
      | none =>
        have he : r.entryOkB (k, v) = false := by simp [rowParser.entryOkB, hk, hd]
        simp [rowParser.parseLoop, hk, hd, exOk, List.forall_mem_cons, he]

theorem parseLoop_ok_dyn (r : rowParser) (entries : List (String × JValue)) (row : Row)
    (dynVals : List (String × JValue)) (row' : Row) (dynVals' : List (String × JValue))
    (h : r.parseLoop entries row dynVals = .ok (row', dynVals')) :
    dynVals' = dynVals ++ entries.filter fun kv => (alistGet r.name2FieldID kv.1).isNone := by
  induction entries generalizing row dynVals with
  | nil =>
    simp [rowParser.parseLoop] at h
    simp [h.2]
  | cons kv rest ih =>
    obtain ⟨k, v⟩ := kv
    cases hk : alistGet r.name2FieldID k with
    | some fid =>
      cases hpe : r.parseEntity fid v with
      | ok data =>
        simp only [rowParser.parseLoop, hk, hpe] at h
        have hrec := ih _ _ h
        simp [List.filter_cons, hk, hrec]
      | error e =>
        simp [rowParser.parseLoop, hk, hpe] at h
    | none =>
      cases hd : r.dynamicField with
      | some df =>
        by_cases hname : k = df.name
        · subst hname
          simp [rowParser.parseLoop, hk, hd] at h
        · simp only [rowParser.parseLoop, hk, hd, if_neg hname] at h
          have hrec := ih _ _ h
          simp [List.filter_cons, hk, hrec, List.append_assoc]
      | none =>
        simp [rowParser.parseLoop, hk, hd] at h

theorem parseLoop_ok_rowGet (r : rowParser) (entries : List (String × JValue)) (row : Row)
    (dynVals : List (String × JValue)) (row' : Row) (dynVals' : List (String × JValue))
    (h : r.parseLoop entries row dynVals = .ok (row', dynVals')) (fid : Int) :
    rowGet row' fid =
      match entries.reverse.find? fun kv => decide (alistGet r.name2FieldID kv.1 = some fid) with
      | some kv => exToOpt (r.parseEntity fid kv.2)
      | none => rowGet row fid := by
  induction entries generalizing row dynVals with
  | nil =>
    simp [rowParser.parseLoop] at h
    simp [h.1]
  | cons kv rest ih =>
    obtain ⟨k, v⟩ := kv
    simp only [List.reverse_cons]
    rw [List.find?_append]
    cases hk : alistGet r.name2FieldID k with
    | some fid0 =>
      cases hpe : r.parseEntity fid0 v with
      | ok data =>
        simp only [rowParser.parseLoop, hk, hpe] at h
        rw [ih _ _ h]
        cases hfind :
            rest.reverse.find? fun kv => decide (alistGet r.name2FieldID kv.1 = some fid) with
        | some x => simp [Option.or]
        | none =>
          by_cases hfid : fid0 = fid
          · subst hfid
            have hd1 : (List.find?
                (fun kv => decide (alistGet r.name2FieldID kv.1 = some fid0)) [(k, v)]) =
                some (k, v) := by
              simp [List.find?, hk]
            simp only [hd1, Option.or]
            rw [hpe]
            simpa [rowGet, rowUpsert, exToOpt] using alistGet_upsert_self row fid0 data
          · have hd1 : (List.find?
                (fun kv => decide (alistGet r.name2FieldID kv.1 = some fid)) [(k, v)]) =
                none := by
              simp [List.find?, hk, hfid]
            simp only [hd1, Option.or]
            simpa [rowGet, rowUpsert] using
              alistGet_upsert_ne row fid0 fid data fun hh => hfid hh.symm
      | error e =>
        simp [rowParser.parseLoop, hk, hpe] at h
    | none =>
      cases hd : r.dynamicField with
      | some df =>
        by_cases hname : k = df.name
        · subst hname
          simp [rowParser.parseLoop, hk, hd] at h
        · simp only [rowParser.parseLoop, hk, hd, if_neg hname] at h
          rw [ih _ _ h]
          have hd1 : (List.find?
              (fun kv => decide (alistGet r.name2FieldID kv.1 = some fid)) [(k, v)]) = none := by
            simp [List.find?, hk]
          rw [hd1]
          cases rest.reverse.find? fun kv => decide (alistGet r.name2FieldID kv.1 = some fid) <;>
            simp [Option.or]
      | none =>
        simp [rowParser.parseLoop, hk, hd] at h

theorem findMissing_eq_none_iff (row : Row) (l : List (String × Int)) :
    findMissing row l = none ↔ ∀ p ∈ l, (rowGet row p.2).isSome = true := by
  induction l with
  | nil => simp [findMissing]
  | cons p rest ih =>
    obtain ⟨n, fid⟩ := p
    cases hs : (rowGet row fid).isSome with
    | true => simp [findMissing, hs, ih, List.forall_mem_cons]
    | false => simp [findMissing, hs, List.forall_mem_cons]

theorem findMissing_eq_some (row : Row) (l : List (String × Int)) (n : String)
    (h : findMissing row l = some n) : ∃ fid, (n, fid) ∈ l ∧ rowGet row fid = none := by
  induction l with
  | nil => simp [findMissing] at h
  | cons p rest ih =>
    obtain ⟨n0, fid0⟩ := p
    cases hs : (rowGet row fid0).isSome with
    | true =>
      simp only [findMissing, hs, if_true] at h
      rcases ih h with ⟨fid, hmem, hnone⟩
      exact ⟨fid, List.mem_cons_of_mem _ hmem, hnone⟩
    | false =>
      simp [findMissing, hs] at h
      have hnone : rowGet row fid0 = none := by
        cases hrg : rowGet row fid0 with
        | none => rfl
        | some v =>
          rw [hrg] at hs
          simp at hs
      exact ⟨fid0, by simp [h], hnone⟩

theorem findMissing_congr (row₁ row₂ : Row) (l : List (String × Int))
    (h : ∀ fid, rowGet row₁ fid = rowGet row₂ fid) :
    findMissing row₁ l = findMissing row₂ l := by
  induction l with
  | nil => rfl
  | cons p rest ih =>
    obtain ⟨n, fid⟩ := p
    simp [findMissing, h fid, ih]

theorem parseEntity_jobj_isOk (r : rowParser) (fid : Int) (m : List (String × JValue)) :
    exOk (r.parseEntity fid (.jobj m)) = true ↔ r.fieldTypeOf fid = .json := by
  cases h : r.fieldTypeOf fid <;> simp [rowParser.parseEntity, h, exOk]

theorem parseEntity_json_jobj (r : rowParser) (fid : Int) (m : List (String × JValue))
    (h : r.fieldTypeOf fid = .json) :
    r.parseEntity fid (.jobj m) = .ok (.vBytes (jsonSerialize (.jobj m))) := by
  simp [rowParser.parseEntity, h]

theorem Parse_jobj_eq (r : rowParser) (entries : List (String × JValue)) :
    r.Parse (.jobj entries) =
      if (alistGet entries r.pkField.name).isSome && r.pkField.autoID then
        .error (.autoIDNoNeedProvide r.pkField.name)
      else
        match r.parseLoop entries [] [] with
        | .error e => .error e
        | .ok (row, dynVals) =>
          match findMissing row r.name2FieldID with
          | some n => .error (.fieldMissed n)
          | none =>
            match r.dynamicField with
            | none => .ok row
            | some _ => r.combineDynamicRow dynVals row := rfl

theorem Parse_isOk_loop (r : rowParser) (entries : List (String × JValue))
    (h : exOk (r.Parse (.jobj entries)) = true) :
    exOk (r.parseLoop entries [] []) = true := by
  rw [Parse_jobj_eq] at h
  cases hb : (alistGet entries r.pkField.name).isSome && r.pkField.autoID with
  | true =>
    rw [hb] at h
    simp [exOk] at h
  | false =>
    rw [hb] at h
    simp only [Bool.false_eq_true, if_false] at h
    cases hloop : r.parseLoop entries [] [] with
    | error e =>
      rw [hloop] at h
      simp [exOk] at h
    | ok pr => simp [exOk]

/-! ### Helper lemmas: serialization and element loops -/

theorem sortPairs_perm (l : List (String × JValue)) : (sortPairs l).Perm l :=
  List.perm_insertionSort pairLE l

theorem sortPairs_sorted (l : List (String × JValue)) : List.Sorted pairLE (sortPairs l) :=
  List.sorted_insertionSort pairLE l

theorem sortPairs_eq_of_perm {l₁ l₂ : List (String × JValue)} (h : l₁.Perm l₂)
    (hnd : (l₁.map Prod.fst).Nodup) : sortPairs l₁ = sortPairs l₂ := by
  have hperm : (sortPairs l₁).Perm (sortPairs l₂) :=
    (sortPairs_perm l₁).trans (h.trans (sortPairs_perm l₂).symm)
  have hnd₁ : ((sortPairs l₁).map Prod.fst).Nodup :=
    (((sortPairs_perm l₁).map Prod.fst).nodup_iff).mpr hnd
  have hnd₂ : ((sortPairs l₂).map Prod.fst).Nodup :=
    ((hperm.map Prod.fst).nodup_iff).mp hnd₁
  have strict : ∀ s : List (String × JValue), List.Sorted pairLE s →
      (s.map Prod.fst).Nodup → List.Sorted pairLT s := by
    intro s hs hnds
    have hne : s.Pairwise fun a b => a.1 ≠ b.1 := List.pairwise_map.mp hnds
    exact (hs.and hne).imp fun hab => lt_of_le_of_ne hab.1 hab.2
  exact List.eq_of_perm_of_sorted hperm
    (strict _ (sortPairs_sorted l₁) hnd₁) (strict _ (sortPairs_sorted l₂) hnd₂)

theorem jsonSerialize_jobj_congr {l₁ l₂ : List (String × JValue)}
    (h : sortPairs l₁ = sortPairs l₂) :
    jsonSerialize (.jobj l₁) = jsonSerialize (.jobj l₂) := by
  rw [jsonSerialize, jsonSerialize, h]

theorem vecSeq_isOk_iff {γ : Type} (r : rowParser) (fid : Int)
    (ext : JValue → Option (Except NumError γ)) (xs : List JValue) :
    exOk (r.vecSeq fid ext xs) = true ↔ ∀ x ∈ xs, extOkB ext x = true := by
  induction xs with
  | nil => simp [rowParser.vecSeq, exOk]
  | cons x rest ih =>
    cases hx : ext x with
    | none => simp [rowParser.vecSeq, hx, exOk, extOkB, List.forall_mem_cons]
    | some res =>
      cases res with
      | ok v =>
        have hm : ∀ e : Except ImportError (List γ), exOk (e.map (v :: ·)) = exOk e := by
          intro e
          cases e <;> rfl
        simp [rowParser.vecSeq, hx, hm, extOkB, List.forall_mem_cons, ih]
      | error e => simp [rowParser.vecSeq, hx, exOk, extOkB, List.forall_mem_cons]

theorem elemSeq_first_unextractable {γ : Type} (r : rowParser) (arr : List JValue)
    (eleType : DataType) (ext : JValue → Option (Except NumError γ))
    (pre : List JValue) (x : JValue) (post : List JValue)
    (hpre : ∀ y ∈ pre, extOkB ext y = true) (hx : ext x = none) :
    r.elemSeq arr eleType ext (pre ++ x :: post) =
      .error (r.wrapArrayValueTypeError (.jarr arr) eleType) := by
  induction pre with
  | nil => simp [rowParser.elemSeq, hx]
  | cons y rest ih =>
    have hy := hpre y (by simp)
    simp only [extOkB] at hy
    cases hey : ext y with
    | none =>
      rw [hey] at hy
      simp at hy
    | some res =>
      cases res with
      | error e =>
        rw [hey] at hy
        simp at hy
      | ok v =>
        have hrest := ih fun z hz => hpre z (List.mem_cons_of_mem _ hz)
        simp [rowParser.elemSeq, hey, hrest, Except.map]

theorem jsonSerialize_jobj_eq (l : List (String × JValue)) :
    jsonSerialize (.jobj l) =
      "\x7b" ++ String.intercalate ","
        ((sortPairs l).map fun p => quoteJString p.1 ++ ":" ++ jsonSerialize p.2) ++ "\x7d" := by
  rw [jsonSerialize]
  rw [List.attach_map_val (sortPairs l) fun p => quoteJString p.1 ++ ":" ++ jsonSerialize p.2]

/-! ### Claim theorems -/

/-- C3: for every Schema Index whose primary key is auto-generated, decoding
any record (a key/value map) that contains a key equal to the primary key's
name fails with the auto-generated-key SchemaViolation error, regardless of
the shape of the supplied value and before any per-field coercion is
attempted. -/
theorem autoPK_supplied_rejected (r : rowParser) (entries : List (String × JValue))
    (hauto : r.pkField.autoID = true)
    (hsupplied : (alistGet entries r.pkField.name).isSome = true) :
    r.Parse (.jobj entries) = .error (.autoIDNoNeedProvide r.pkField.name) := by
  rw [Parse_jobj_eq, hsupplied, hauto]
  rfl

/-- Witness for C3 at a concrete Schema Index and record. -/
theorem autoPK_supplied_rejected_witness :
    rAuto.Parse (.jobj [("id", .jnum "5"), ("vec", .jarr [.jnum "1", .jnum "2"])]) =
      .error (.autoIDNoNeedProvide "id") :=
  autoPK_supplied_rejected rAuto
    [("id", .jnum "5"), ("vec", .jarr [.jnum "1", .jnum "2"])] rfl rfl

/-- C10: array elements declared int8/int16 are parsed and range-checked
only against the 32-bit range: 1000 is accepted into an int8-element array
(stored in the widened 32-bit sequence) although the scalar int8 field
rejects 1000 as out of range; likewise 100000 for int16. -/
theorem array_narrow_int_range_widened :
    rArr.parseEntity 8 (.jarr [.jnum "1000"]) = .ok (.vScalar (.intData [1000])) ∧
    rArr.parseEntity 7 (.jnum "1000") = .error (.numError (.rangeErr "1000")) ∧
    rArr.parseEntity 11 (.jarr [.jnum "100000"]) = .ok (.vScalar (.intData [100000])) ∧
    rArr.parseEntity 10 (.jnum "100000") = .error (.numError (.rangeErr "100000")) :=
  ⟨rfl, rfl, rfl, rfl⟩

/-- C4 as stated is false: the error for `[1, 2, "3"]` against element type
int32 carries no element index, and it reports the runtime type of the whole
array (a Go slice), not the offending string element's shape. -/
theorem array_type_error_payload_cex :
    rArr.arrayToFieldData [.jnum "1", .jnum "2", .jstr "3"] .int32 =
      .error (.arrayEleTypeError .int32 .goSliceAny
        (.jarr [.jnum "1", .jnum "2", .jstr "3"])) ∧
    GoType.goSliceAny ≠ GoType.goString :=
  ⟨rfl, by decide⟩

/-- C4 (amended): coercing `[1, 2, "3"]` with element type int32 fails at
the first non-numeric element with a TypeMismatch error reporting the
expected element type, the whole array value and the whole array's runtime
type (no element index, no element shape); `[1, 2, 3]` succeeds with a
3-element 32-bit sequence; in general the first element of the wrong
runtime shape aborts the whole array with that error. -/
theorem array_int32_coercion (r : rowParser) (pre post : List JValue) (x : JValue)
    (hpre : ∀ y ∈ pre, extOkB extInt32 y = true) (hx : extInt32 x = none) :
    r.arrayToFieldData (pre ++ x :: post) .int32 =
      .error (.arrayEleTypeError .int32 .goSliceAny (.jarr (pre ++ x :: post))) ∧
    r.arrayToFieldData [.jnum "1", .jnum "2", .jstr "3"] .int32 =
      .error (.arrayEleTypeError .int32 .goSliceAny
        (.jarr [.jnum "1", .jnum "2", .jstr "3"])) ∧
    r.arrayToFieldData [.jnum "1", .jnum "2", .jnum "3"] .int32 =
      .ok (.intData [1, 2, 3]) := by
  refine ⟨?_, rfl, rfl⟩
  have hseq := elemSeq_first_unextractable r (pre ++ x :: post) .int32 extInt32 pre x post hpre hx
  simp [rowParser.arrayToFieldData, hseq, rowParser.wrapArrayValueTypeError, Except.map, goTypeOf]

/-- Witness for C4's amended claim at the concrete split `[1, 2] ++ "3" :: []`. -/
theorem array_int32_coercion_witness :
    rArr.arrayToFieldData ([.jnum "1", .jnum "2"] ++ .jstr "3" :: []) .int32 =
      .error (.arrayEleTypeError .int32 .goSliceAny
        (.jarr ([.jnum "1", .jnum "2"] ++ .jstr "3" :: []))) ∧
    rArr.arrayToFieldData [.jnum "1", .jnum "2", .jstr "3"] .int32 =
      .error (.arrayEleTypeError .int32 .goSliceAny
        (.jarr [.jnum "1", .jnum "2", .jstr "3"])) ∧
    rArr.arrayToFieldData [.jnum "1", .jnum "2", .jnum "3"] .int32 =
      .ok (.intData [1, 2, 3]) :=
  array_int32_coercion rArr [.jnum "1", .jnum "2"] [] (.jstr "3") (by decide) rfl

/-- C1 as stated is false for half-precision vectors: with expected dim 8,
a 17-element list passes the truncating `len/2` dimension check and coerces
successfully, although its length differs from `2 * 8`. -/
theorem vector_dim_fp16_truncation_cex :
    exOk (rVec.parseEntity 5 (.jarr (List.replicate 17 (.jnum "1")))) = true ∧
    (17 : Nat) ≠ 2 * 8 ∧ rVec.dim = 8 :=
  ⟨rfl, by decide, rfl⟩

/-- C1 (amended): for a declared vector field, binary vectors are rejected
with DimensionMismatch exactly when `length * 8 ≠ dim` and float vectors
exactly when `length ≠ dim`, succeeding on the matching length with
well-typed numeric elements; half-precision vectors use the truncating
integer check `length / 2 ≠ dim` (so lengths `2*dim` and `2*dim + 1` are
both accepted), not exact equality with `2 * dim`. -/
theorem vector_dim_checks (r : rowParser) (fid : Int) (f : FieldSchema)
    (hf : alistGet r.id2Field fid = some f) :
    (f.dataType = .binaryVector →
      ∀ xs : List JValue,
        (xs.length * 8 ≠ r.dim →
          r.parseEntity fid (.jarr xs) =
            .error (.dimError r.dim f.name .binaryVector (xs.length * 8))) ∧
        (xs.length * 8 = r.dim → (∀ x ∈ xs, extOkB extUint8 x = true) →
          exOk (r.parseEntity fid (.jarr xs)) = true)) ∧
    (f.dataType = .floatVector →
      ∀ xs : List JValue,
        (xs.length ≠ r.dim →
          r.parseEntity fid (.jarr xs) =
            .error (.dimError r.dim f.name .floatVector xs.length)) ∧
        (xs.length = r.dim → (∀ x ∈ xs, extOkB extFloat32 x = true) →
          exOk (r.parseEntity fid (.jarr xs)) = true)) ∧
    (f.dataType = .float16Vector →
      ∀ xs : List JValue,
        (xs.length / 2 ≠ r.dim →
          r.parseEntity fid (.jarr xs) =
            .error (.dimError r.dim f.name .float16Vector (xs.length / 2))) ∧
        (xs.length / 2 = r.dim → (∀ x ∈ xs, extOkB extUint8 x = true) →
          exOk (r.parseEntity fid (.jarr xs)) = true)) := by
  have hfn : r.fieldNameOf fid = f.name := by simp [rowParser.fieldNameOf, hf]
  have hmapB : ∀ e : Except ImportError (List Nat), exOk (e.map Value.vByteVec) = exOk e := by
    intro e
    cases e <;> rfl
  have hmapF : ∀ e : Except ImportError (List String), exOk (e.map Value.vFloatVec) = exOk e := by
    intro e
    cases e <;> rfl
  refine ⟨fun hdt xs => ⟨fun hdim => ?_, fun hdim hall => ?_⟩,
    fun hdt xs => ⟨fun hdim => ?_, fun hdim hall => ?_⟩,
    fun hdt xs => ⟨fun hdim => ?_, fun hdim hall => ?_⟩⟩ <;>
    have hft : r.fieldTypeOf fid = f.dataType := by simp [rowParser.fieldTypeOf, hf]
  · simp [rowParser.parseEntity, hft, hdt, hdim, rowParser.wrapDimError, hfn]
  · simp only [rowParser.parseEntity, hft, hdt]
    rw [if_neg (by simp [hdim]), hmapB]
    exact (vecSeq_isOk_iff r fid extUint8 xs).mpr hall
  · simp [rowParser.parseEntity, hft, hdt, hdim, rowParser.wrapDimError, hfn]
  · simp only [rowParser.parseEntity, hft, hdt]
    rw [if_neg (by simp [hdim]), hmapF]
    exact (vecSeq_isOk_iff r fid extFloat32 xs).mpr hall
  · simp [rowParser.parseEntity, hft, hdt, hdim, rowParser.wrapDimError, hfn]
  · simp only [rowParser.parseEntity, hft, hdt]
    rw [if_neg (by simp [hdim]), hmapB]
    exact (vecSeq_isOk_iff r fid extUint8 xs).mpr hall

/-- Witness for C1's amended claim: a dim-mismatching float vector is
rejected with DimensionMismatch, a matching binary vector succeeds, a
`2*dim` half-precision list succeeds; a float-vector element `1e39` is not
well-typed at 32 bits (ParseFloat range error), so a dim-length list of
them is rejected with ErrRange rather than accepted. -/
theorem vector_dim_checks_witness :
    rVec.parseEntity 6 (.jarr [.jnum "1.5"]) =
      .error (.dimError 8 "fv" .floatVector 1) ∧
    exOk (rVec.parseEntity 4 (.jarr [.jnum "0"])) = true ∧
    exOk (rVec.parseEntity 5 (.jarr (List.replicate 16 (.jnum "1")))) = true ∧
    extOkB extFloat32 (.jnum "1e39") = false ∧
    rVec.parseEntity 6 (.jarr (List.replicate 8 (.jnum "1e39"))) =
      .error (.numError (.rangeErr "1e39")) :=
  ⟨((vector_dim_checks rVec 6 fvecField8 rfl).2.1 rfl [.jnum "1.5"]).1 (by decide),
    ((vector_dim_checks rVec 4 binVecField rfl).1 rfl [.jnum "0"]).2 (by decide) (by decide),
    ((vector_dim_checks rVec 5 fp16Field rfl).2.2 rfl (List.replicate 16 (.jnum "1"))).2
      (by decide) (by decide),
    by decide, rfl⟩

/-- C6: for a JSON-typed field, a string value coerces successfully iff it
is well-formed JSON text and is then stored as the raw bytes of that exact
text, a key/value map always coerces to its canonical re-serialization,
and every other value shape fails with TypeMismatch. -/
theorem json_field_coercion (r : rowParser) (fid : Int) (f : FieldSchema)
    (hf : alistGet r.id2Field fid = some f) (hjson : f.dataType = .json) :
    (∀ s : String,
      (jsonValid s = true → r.parseEntity fid (.jstr s) = .ok (.vBytes s)) ∧
      (jsonValid s = false →
        r.parseEntity fid (.jstr s) = .error (.jsonUnmarshalError s))) ∧
    (∀ m : List (String × JValue),
      r.parseEntity fid (.jobj m) = .ok (.vBytes (jsonSerialize (.jobj m)))) ∧
    (∀ b : Bool,
      r.parseEntity fid (.jbool b) = .error (.typeError .json f.name .goBool (.jbool b))) ∧
    (∀ s : String,
      r.parseEntity fid (.jnum s) = .error (.typeError .json f.name .goNumber (.jnum s))) ∧
    (∀ xs : List JValue,
      r.parseEntity fid (.jarr xs) =
        .error (.typeError .json f.name .goSliceAny (.jarr xs))) ∧
    r.parseEntity fid .jnull = .error (.typeError .json f.name .goNil .jnull) := by
  have hft : r.fieldTypeOf fid = .json := by simp [rowParser.fieldTypeOf, hf, hjson]
  have hfn : r.fieldNameOf fid = f.name := by simp [rowParser.fieldNameOf, hf]
  refine ⟨fun s => ⟨fun hv => ?_, fun hv => ?_⟩, fun m => ?_, fun b => ?_, fun s => ?_,
    fun xs => ?_, ?_⟩
  · simp [rowParser.parseEntity, hft, hfn, rowParser.wrapTypeError, goTypeOf, hv]
  · simp [rowParser.parseEntity, hft, hfn, rowParser.wrapTypeError, goTypeOf, hv]
  · simp [rowParser.parseEntity, hft, hfn, rowParser.wrapTypeError, goTypeOf]
  · simp [rowParser.parseEntity, hft, hfn, rowParser.wrapTypeError, goTypeOf]
  · simp [rowParser.parseEntity, hft, hfn, rowParser.wrapTypeError, goTypeOf]
  · simp [rowParser.parseEntity, hft, hfn, rowParser.wrapTypeError, goTypeOf]
  · simp [rowParser.parseEntity, hft, hfn, rowParser.wrapTypeError, goTypeOf]

/-- Witness for C6: `":x7bbad json"` (an unterminated object) is rejected as
malformed JSON text, and the map value with key `a` and value 1 coerces to
its canonical serialization. -/
theorem json_field_coercion_witness :
    rArr.parseEntity 9 (.jstr "\x7bbad json") =
      .error (.jsonUnmarshalError "\x7bbad json") ∧
    rArr.parseEntity 9 (.jobj [("a", .jnum "1")]) =
      .ok (.vBytes (jsonSerialize (.jobj [("a", .jnum "1")]))) ∧
    jsonSerialize (.jobj [("a", .jnum "1")]) = "\x7b\"a\":1\x7d" := by
  refine ⟨((json_field_coercion rArr 9 jsonField rfl rfl).1 "\x7bbad json").2 rfl,
    (json_field_coercion rArr 9 jsonField rfl rfl).2.1 [("a", .jnum "1")], ?_⟩
  rw [jsonSerialize_jobj_eq]
  simp [sortPairs, jsonSerialize, quoteJString, escapeChar]
  rfl

theorem rowGet_upsert (row : Row) (fid0 fid : Int) (v : Value) :
    rowGet (rowUpsert row fid0 v) fid = if fid0 = fid then some v else rowGet row fid := by
  by_cases h : fid0 = fid
  · subst h
    simp [rowGet, rowUpsert, alistGet_upsert_self]
  · simp [rowGet, rowUpsert, h, alistGet_upsert_ne row fid0 fid v fun hh => h hh.symm]

theorem bool_eq_of_iff {b₁ b₂ : Bool} (h : b₁ = true ↔ b₂ = true) : b₁ = b₂ := by
  cases b₁ <;> cases b₂ <;> simp_all

theorem alistErase_sublist {α β : Type} [DecidableEq α] (l : List (α × β)) (k : α) :
    (alistErase l k).Sublist l := by
  induction l with
  | nil => simp [alistErase]
  | cons p rest ih =>
    obtain ⟨k0, v0⟩ := p
    by_cases hk : k0 = k
    · simpa [alistErase, hk] using ih.cons _
    · simpa [alistErase, hk] using ih.cons₂ (k0, v0)

theorem alistErase_keys_nodup {α β : Type} [DecidableEq α] (l : List (α × β)) (k : α)
    (hnd : (l.map Prod.fst).Nodup) : ((alistErase l k).map Prod.fst).Nodup :=
  hnd.sublist ((alistErase_sublist l k).map Prod.fst)

/-- If a record contains a key that matches no declared field and there is
no dynamic field, the loop fails; when every matched entry coerces, the
error is the undefined-field one, naming an unmatched key. -/
theorem parseLoop_noDyn_unmatched (r : rowParser) (hnody : r.dynamicField = none) :
    ∀ (entries : List (String × JValue)) (row : Row) (dynVals : List (String × JValue)),
      (∀ kv ∈ entries, r.coerceOkB kv = true) →
      (∃ kv ∈ entries, alistGet r.name2FieldID kv.1 = none) →
      ∃ k', alistGet r.name2FieldID k' = none ∧ (∃ v', (k', v') ∈ entries) ∧
        r.parseLoop entries row dynVals = .error (.fieldNotDefined k') := by
  intro entries
  induction entries with
  | nil =>
    intro row dynVals _ hex
    rcases hex with ⟨kv, hkv, _⟩
    simp at hkv
  | cons kv rest ih =>
    intro row dynVals hcoerce hex
    obtain ⟨k0, v0⟩ := kv
    cases hk : alistGet r.name2FieldID k0 with
    | none =>
      exact ⟨k0, hk, ⟨v0, by simp⟩, by simp [rowParser.parseLoop, hk, hnody]⟩
    | some fid =>
      have hc := hcoerce (k0, v0) (by simp)
      simp only [rowParser.coerceOkB, hk] at hc
      cases hpe : r.parseEntity fid v0 with
      | error e =>
        rw [hpe] at hc
        simp [exOk] at hc
      | ok data =>
        have hex' : ∃ kv ∈ rest, alistGet r.name2FieldID kv.1 = none := by
          rcases hex with ⟨kv2, hkv2, hnone⟩
          rcases List.mem_cons.mp hkv2 with heq | hmem2
          · rw [heq] at hnone
            rw [hnone] at hk
            cases hk
          · exact ⟨kv2, hmem2, hnone⟩
        rcases ih (rowUpsert row fid data) dynVals
            (fun kv2 h2 => hcoerce kv2 (List.mem_cons_of_mem _ h2)) hex' with
          ⟨k', hk', ⟨v', hv'⟩, hloop⟩
        exact ⟨k', hk', ⟨v', List.mem_cons_of_mem _ hv'⟩,
          by simp [rowParser.parseLoop, hk, hpe, hloop]⟩

/-- C7 as stated is false: a record containing an undefined key can be
rejected with a TypeMismatch error on another field instead of the
SchemaViolation naming the undefined key, because decoding fails fast on
the first offending entry. -/
theorem unknown_key_rejection_cex :
    rNoDyn.Parse (.jobj [("a", .jstr "x"), ("unknown", .jnum "1")]) =
      .error (.typeError .int64 "a" .goString (.jstr "x")) ∧
    ∀ k : String,
      ImportError.typeError .int64 "a" .goString (.jstr "x") ≠ .fieldNotDefined k :=
  ⟨rfl, fun _ h => ImportError.noConfusion h⟩

/-- C7 (amended): for a Schema Index without a dynamic field, decoding any
record containing a key that matches no declared explicit field name always
fails (no Row is returned); when every matched entry coerces successfully
and the auto-PK rule is not violated, the error is the SchemaViolation
naming an undefined key. -/
theorem unknown_key_rejection (r : rowParser) (entries : List (String × JValue))
    (k : String) (v : JValue) (hnody : r.dynamicField = none)
    (hmem : (k, v) ∈ entries) (hunk : alistGet r.name2FieldID k = none) :
    exOk (r.Parse (.jobj entries)) = false ∧
    ((∀ kv ∈ entries, r.coerceOkB kv = true) →
      ((alistGet entries r.pkField.name).isSome && r.pkField.autoID) = false →
      ∃ k', alistGet r.name2FieldID k' = none ∧ (∃ v', (k', v') ∈ entries) ∧
        r.Parse (.jobj entries) = .error (.fieldNotDefined k')) := by
  constructor
  · cases hok : exOk (r.Parse (.jobj entries)) with
    | false => rfl
    | true =>
      exfalso
      have hloop := Parse_isOk_loop r entries hok
      have hall := (parseLoop_isOk_iff r entries [] []).mp hloop
      have hthis := hall (k, v) hmem
      simp [rowParser.entryOkB, hunk, hnody] at hthis
  · intro hcoerce hpk
    rcases parseLoop_noDyn_unmatched r hnody entries [] [] hcoerce ⟨(k, v), hmem, hunk⟩ with
      ⟨k', hk', hv', hloop⟩
    refine ⟨k', hk', hv', ?_⟩
    rw [Parse_jobj_eq, hpk]
    simp [hloop]

/-- Witness for C7's amended claim: all declared-field entries coerce, so
the record with the extra key `extra` is rejected with the undefined-field
SchemaViolation. -/
theorem unknown_key_rejection_witness :
    exOk (rNoDyn.Parse (.jobj
      [("id", .jnum "1"), ("vec", .jarr [.jnum "1", .jnum "2"]),
       ("a", .jnum "1"), ("b", .jnum "2"), ("extra", .jnull)])) = false ∧
    ∃ k', alistGet rNoDyn.name2FieldID k' = none ∧
      (∃ v', (k', v') ∈
        [("id", JValue.jnum "1"), ("vec", JValue.jarr [JValue.jnum "1", JValue.jnum "2"]),
         ("a", JValue.jnum "1"), ("b", JValue.jnum "2"), ("extra", JValue.jnull)]) ∧
      rNoDyn.Parse (.jobj
        [("id", .jnum "1"), ("vec", .jarr [.jnum "1", .jnum "2"]),
         ("a", .jnum "1"), ("b", .jnum "2"), ("extra", .jnull)]) =
        .error (.fieldNotDefined k') := by
  have h := unknown_key_rejection rNoDyn
    [("id", .jnum "1"), ("vec", .jarr [.jnum "1", .jnum "2"]),
     ("a", .jnum "1"), ("b", .jnum "2"), ("extra", .jnull)]
    "extra" .jnull rfl (by simp) rfl
  exact ⟨h.1, h.2 (by decide) rfl⟩

theorem exToOpt_isSome {ε α : Type} (e : Except ε α) (h : exOk e = true) :
    (exToOpt e).isSome = true := by
  cases e with
  | ok a => rfl
  | error e => simp [exOk] at h

/-- Bridge: after a successful loop over a record with all entries
acceptable, an explicit field's slot is filled exactly when the record
contains an entry under that field's name. -/
theorem loop_row_filled_iff (r : rowParser) (entries : List (String × JValue))
    (row' : Row) (dynVals' : List (String × JValue))
    (hloop : r.parseLoop entries [] [] = .ok (row', dynVals'))
    (hok : ∀ kv ∈ entries, r.entryOkB kv = true)
    (hmapnd : (r.name2FieldID.map Prod.fst).Nodup)
    (hinj : (r.name2FieldID.map Prod.snd).Nodup)
    (n : String) (fid : Int) (hmem : (n, fid) ∈ r.name2FieldID) :
    (rowGet row' fid).isSome = true ↔ ∃ v, (n, v) ∈ entries := by
  rw [parseLoop_ok_rowGet r entries [] [] _ _ hloop fid]
  constructor
  · intro h
    cases hfind : entries.reverse.find? fun kv =>
        decide (alistGet r.name2FieldID kv.1 = some fid) with
    | none =>
      rw [hfind] at h
      simp [rowGet, alistGet] at h
    | some kv =>
      have hkvmem : kv ∈ entries := List.mem_reverse.mp (List.mem_of_find?_eq_some hfind)
      have hpred := List.find?_some hfind
      have hget : alistGet r.name2FieldID kv.1 = some fid := of_decide_eq_true hpred
      have hkeq : kv.1 = n :=
        mem_snd_nodup_inj hinj (alistGet_eq_some_mem hget) hmem
      exact ⟨kv.2, by rw [← hkeq]; exact hkvmem⟩
  · rintro ⟨v, hv⟩
    have hget : alistGet r.name2FieldID n = some fid := mem_alistGet_of_nodup hmapnd hmem
    have hex : ∃ kv ∈ entries.reverse,
        decide (alistGet r.name2FieldID kv.1 = some fid) = true :=
      ⟨(n, v), List.mem_reverse.mpr hv, by simp [hget]⟩
    have hsome := List.find?_isSome.mpr hex
    cases hfind : entries.reverse.find? fun kv =>
        decide (alistGet r.name2FieldID kv.1 = some fid) with
    | none =>
      rw [hfind] at hsome
      simp at hsome
    | some kv =>
      have hkvmem : kv ∈ entries := List.mem_reverse.mp (List.mem_of_find?_eq_some hfind)
      have hpred2 := List.find?_some hfind
      have hget2 : alistGet r.name2FieldID kv.1 = some fid := of_decide_eq_true hpred2
      have hco := hok kv hkvmem
      simp only [rowParser.entryOkB, hget2] at hco
      exact exToOpt_isSome _ hco

/-- C8: when the auto-PK rule is satisfied and every entry of the record is
acceptable (matched keys coerce; unmatched keys only with a JSON-typed
dynamic field), decoding succeeds if and only if every explicit field of
the name-to-ID map received a value from the record; otherwise it fails
with the SchemaViolation naming a missing field that received no value. -/
theorem missing_field_check (r : rowParser) (entries : List (String × JValue))
    (hpk : ((alistGet entries r.pkField.name).isSome && r.pkField.autoID) = false)
    (hok : ∀ kv ∈ entries, r.entryOkB kv = true)
    (hmapnd : (r.name2FieldID.map Prod.fst).Nodup)
    (hinj : (r.name2FieldID.map Prod.snd).Nodup)
    (hdyn : (match r.dynamicField with
             | some df => decide (r.fieldTypeOf df.fieldID = DataType.json)
             | none => true) = true) :
    (exOk (r.Parse (.jobj entries)) = true ↔
      ∀ p ∈ r.name2FieldID, ∃ v, (p.1, v) ∈ entries) ∧
    (exOk (r.Parse (.jobj entries)) = false →
      ∃ n fid, (n, fid) ∈ r.name2FieldID ∧ (∀ v, (n, v) ∉ entries) ∧
        r.Parse (.jobj entries) = .error (.fieldMissed n)) := by
  have hloopok : exOk (r.parseLoop entries [] []) = true :=
    (parseLoop_isOk_iff r entries [] []).mpr hok
  cases hloop : r.parseLoop entries [] [] with
  | error e =>
    rw [hloop] at hloopok
    simp [exOk] at hloopok
  | ok pr =>
    obtain ⟨row', dynVals'⟩ := pr
    have hfill := loop_row_filled_iff r entries row' dynVals' hloop hok hmapnd hinj
    have hcomb : ∀ df, r.dynamicField = some df → ∀ dv (row0 : Row),
        exOk (r.combineDynamicRow dv row0) = true := by
      intro df hd dv row0
      rw [hd] at hdyn
      simp only at hdyn
      have hjson : r.fieldTypeOf df.fieldID = .json := of_decide_eq_true hdyn
      by_cases hemp : dv.isEmpty
      · simp [rowParser.combineDynamicRow, hd, hemp, exOk]
      · simp [rowParser.combineDynamicRow, hd, hemp,
          parseEntity_json_jobj r df.fieldID dv hjson, exOk]
    have hparse : r.Parse (.jobj entries) =
        match findMissing row' r.name2FieldID with
        | some n => .error (.fieldMissed n)
        | none =>
          match r.dynamicField with
          | none => .ok row'
          | some _ => r.combineDynamicRow dynVals' row' := by
      rw [Parse_jobj_eq, hpk]
      simp [hloop]
    constructor
    · constructor
      · intro hsucc p hp
        cases hfm : findMissing row' r.name2FieldID with
        | some n =>
          rw [hparse, hfm] at hsucc
          simp [exOk] at hsucc
        | none =>
          have hall := (findMissing_eq_none_iff row' r.name2FieldID).mp hfm
          exact (hfill p.1 p.2 hp).mp (hall p hp)
      · intro hall
        have hfm : findMissing row' r.name2FieldID = none :=
          (findMissing_eq_none_iff row' r.name2FieldID).mpr fun p hp =>
            (hfill p.1 p.2 hp).mpr (hall p hp)
        rw [hparse, hfm]
        cases hd : r.dynamicField with
        | none => rfl
        | some df => exact hcomb df hd dynVals' row'
    · intro hfail
      cases hfm : findMissing row' r.name2FieldID with
      | none =>
        exfalso
        rw [hparse, hfm] at hfail
        cases hd : r.dynamicField with
        | none =>
          rw [hd] at hfail
          simp [exOk] at hfail
        | some df =>
          rw [hd] at hfail
          rw [hcomb df hd dynVals' row'] at hfail
          cases hfail
      | some n =>
        rcases findMissing_eq_some row' r.name2FieldID n hfm with ⟨fid, hmem, hnone⟩
        refine ⟨n, fid, hmem, ?_, by rw [hparse, hfm]⟩
        intro v hv
        have := (hfill n fid hmem).mpr ⟨v, hv⟩
        rw [hnone] at this
        cases this

/-- Witness for C8 at a concrete Schema Index and a complete record. -/
theorem missing_field_check_witness :
    (exOk (rDyn.Parse (.jobj
        [("id", .jnum "1"), ("vec", .jarr [.jnum "1", .jnum "2"])])) = true ↔
      ∀ p ∈ rDyn.name2FieldID, ∃ v,
        (p.1, v) ∈ [("id", JValue.jnum "1"),
          ("vec", JValue.jarr [JValue.jnum "1", JValue.jnum "2"])]) ∧
    (exOk (rDyn.Parse (.jobj
        [("id", .jnum "1"), ("vec", .jarr [.jnum "1", .jnum "2"])])) = false →
      ∃ n fid, (n, fid) ∈ rDyn.name2FieldID ∧
        (∀ v, (n, v) ∉ [("id", JValue.jnum "1"),
          ("vec", JValue.jarr [JValue.jnum "1", JValue.jnum "2"])]) ∧
        rDyn.Parse (.jobj [("id", .jnum "1"), ("vec", .jarr [.jnum "1", .jnum "2"])]) =
          .error (.fieldMissed n)) :=
  missing_field_check rDyn [("id", .jnum "1"), ("vec", .jarr [.jnum "1", .jnum "2"])]
    rfl (by decide) (by decide) (by decide) rfl

/-- C2: for a Schema Index with a dynamic field named `$meta`: a record
containing the key `$meta` itself is always rejected; when decoding
succeeds, the Row maps the dynamic field's ID to the canonical JSON
serialization of the unmatched key/value pairs, or to the literal
empty-object string when there are none. -/
theorem dynamic_field_aggregation (r : rowParser) (df : FieldSchema)
    (entries : List (String × JValue))
    (hdf : r.dynamicField = some df) (hname : df.name = "$meta")
    (hmap : alistGet r.name2FieldID "$meta" = none) :
    ((∃ v, ("$meta", v) ∈ entries) → exOk (r.Parse (.jobj entries)) = false) ∧
    (∀ row, r.Parse (.jobj entries) = .ok row →
      ((entries.filter fun kv => (alistGet r.name2FieldID kv.1).isNone) ≠ [] →
        rowGet row df.fieldID =
          some (.vBytes (jsonSerialize
            (.jobj (entries.filter fun kv => (alistGet r.name2FieldID kv.1).isNone))))) ∧
      ((entries.filter fun kv => (alistGet r.name2FieldID kv.1).isNone) = [] →
        rowGet row df.fieldID = some (.vString "\x7b\x7d"))) := by
  constructor
  · rintro ⟨v, hv⟩
    cases hok : exOk (r.Parse (.jobj entries)) with
    | false => rfl
    | true =>
      exfalso
      have hloop := Parse_isOk_loop r entries hok
      have hall := (parseLoop_isOk_iff r entries [] []).mp hloop
      have hthis := hall ("$meta", v) hv
      simp [rowParser.entryOkB, hmap, hdf, hname] at hthis
  · intro row hrow
    rw [Parse_jobj_eq] at hrow
    cases hb : (alistGet entries r.pkField.name).isSome && r.pkField.autoID with
    | true =>
      rw [hb] at hrow
      simp at hrow
    | false =>
      rw [hb] at hrow
      simp only [Bool.false_eq_true, if_false] at hrow
      cases hloop : r.parseLoop entries [] [] with
      | error e =>
        rw [hloop] at hrow
        simp at hrow
      | ok pr =>
        obtain ⟨row0, dyn0⟩ := pr
        rw [hloop] at hrow
        simp only at hrow
        cases hfm : findMissing row0 r.name2FieldID with
        | some n =>
          rw [hfm] at hrow
          simp at hrow
        | none =>
          rw [hfm] at hrow
          rw [hdf] at hrow
          simp only at hrow
          have hdval : dyn0 =
              entries.filter fun kv => (alistGet r.name2FieldID kv.1).isNone := by
            have hd0 := parseLoop_ok_dyn r entries [] [] row0 dyn0 hloop
            simpa using hd0
          constructor
          · intro hne
            have hne0 : dyn0 ≠ [] := by
              rw [hdval]
              exact hne
            have hempB : dyn0.isEmpty = false := by
              cases hdyn0 : dyn0 with
              | nil => exact absurd hdyn0 hne0
              | cons a t => rfl
            simp only [rowParser.combineDynamicRow, hdf, hempB, Bool.false_eq_true,
              if_false] at hrow
            cases hpe : r.parseEntity df.fieldID (.jobj dyn0) with
            | error e =>
              rw [hpe] at hrow
              simp at hrow
            | ok data =>
              rw [hpe] at hrow
              have hroweq : row = rowUpsert row0 df.fieldID data := by
                injection hrow with h'
                exact h'.symm
              have hjson : r.fieldTypeOf df.fieldID = .json :=
                (parseEntity_jobj_isOk r df.fieldID dyn0).mp (by rw [hpe]; rfl)
              have hdata : data = .vBytes (jsonSerialize (.jobj dyn0)) := by
                have hps := parseEntity_json_jobj r df.fieldID dyn0 hjson
                rw [hpe] at hps
                injection hps with h'
              rw [hroweq, rowGet_upsert]
              simp [hdata, hdval]
          · intro hnil
            have hempB : dyn0.isEmpty = true := by
              rw [hdval, hnil]
              rfl
            simp only [rowParser.combineDynamicRow, hdf, hempB, if_true] at hrow
            have hroweq : row = rowUpsert row0 df.fieldID (.vString "\x7b\x7d") := by
              injection hrow with h'
              exact h'.symm
            rw [hroweq, rowGet_upsert]
            simp

/-- Witness for C2: supplying `$meta` directly is rejected; the extra key
`x` lands in the dynamic slot as the canonical JSON serialization; with no
extra keys the slot holds the literal empty-object string. -/
theorem dynamic_field_aggregation_witness :
    exOk (rDyn.Parse (.jobj
      [("id", .jnum "1"), ("vec", .jarr [.jnum "1", .jnum "2"]),
       ("$meta", .jobj [("x", .jnum "8")])])) = false ∧
    rowGet [(1, .vInt64 1), (2, .vFloatVec ["1", "2"]),
        (3, .vBytes (jsonSerialize (.jobj [("x", .jnum "8")])))] 3 =
      some (.vBytes (jsonSerialize (.jobj [("x", .jnum "8")]))) ∧
    rowGet [(1, .vInt64 1), (2, .vFloatVec ["1", "2"]), (3, .vString "\x7b\x7d")] 3 =
      some (.vString "\x7b\x7d") ∧
    jsonSerialize (.jobj [("x", .jnum "8")]) = "\x7b\"x\":8\x7d" := by
  refine ⟨?_, ?_, ?_, ?_⟩
  · exact (dynamic_field_aggregation rDyn metaField _ rfl rfl rfl).1
      ⟨.jobj [("x", .jnum "8")],
        List.mem_cons_of_mem _ (List.mem_cons_of_mem _ (List.mem_cons_self _ _))⟩
  · exact ((dynamic_field_aggregation rDyn metaField
      [("id", .jnum "1"), ("vec", .jarr [.jnum "1", .jnum "2"]), ("x", .jnum "8")]
      rfl rfl rfl).2
      [(1, .vInt64 1), (2, .vFloatVec ["1", "2"]),
       (3, .vBytes (jsonSerialize (.jobj [("x", .jnum "8")])))] rfl).1
      fun h => List.noConfusion h
  · exact ((dynamic_field_aggregation rDyn metaField
      [("id", .jnum "1"), ("vec", .jarr [.jnum "1", .jnum "2"])]
      rfl rfl rfl).2
      [(1, .vInt64 1), (2, .vFloatVec ["1", "2"]), (3, .vString "\x7b\x7d")] rfl).2 rfl
  · rw [jsonSerialize_jobj_eq]
    simp [sortPairs, jsonSerialize, quoteJString, escapeChar]
    rfl

theorem alistGet_erase_some {α β : Type} [DecidableEq α] {l : List (α × β)} {k n : α} {v : β}
    (h : alistGet (alistErase l k) n = some v) : alistGet l n = some v ∧ n ≠ k := by
  by_cases hk : n = k
  · rw [hk, alistGet_erase_self] at h
    cases h
  · rw [alistGet_erase_ne l k n hk] at h
    exact ⟨h, hk⟩

theorem alistGet_erase_of_ne {α β : Type} [DecidableEq α] {l : List (α × β)} {k n : α}
    (hne : n ≠ k) : alistGet (alistErase l k) n = alistGet l n :=
  alistGet_erase_ne l k n hne

/-- C5: after successful Schema Index construction, the name-to-ID map has
exactly the declared fields' entries minus the primary key's entry iff it
is auto-generated and minus the dynamic field's entry; it is consistent
with the ID-to-descriptor map; its keys are unique; and a non-auto primary
key keeps its entry. -/
theorem schema_index_name_map (s : CollectionSchema) (r : rowParser)
    (hndn : (s.fields.map fun f => f.name).Nodup)
    (hndi : (s.fields.map fun f => f.fieldID).Nodup)
    (hok : NewRowParser s = .ok r) :
    (∀ n fid, alistGet r.name2FieldID n = some fid ↔
      ((∃ f, f ∈ s.fields ∧ f.name = n ∧ f.fieldID = fid) ∧
        ¬(r.pkField.autoID = true ∧ n = r.pkField.name) ∧
        ∀ df, r.dynamicField = some df → n ≠ df.name)) ∧
    (∀ n fid, alistGet r.name2FieldID n = some fid →
      ∃ f, alistGet r.id2Field fid = some f ∧ f.name = n ∧ f.fieldID = fid) ∧
    (r.name2FieldID.map Prod.fst).Nodup ∧
    (r.pkField.autoID = false →
      (∀ df, r.dynamicField = some df → df.name ≠ r.pkField.name) →
      alistGet r.name2FieldID r.pkField.name = some r.pkField.fieldID) := by
  simp only [NewRowParser, bind, Except.bind, pure, Except.pure] at hok
  cases hv : getVectorFieldSchema s with
  | error e =>
    rw [hv] at hok
    simp at hok
  | ok vf =>
  rw [hv] at hok
  simp only at hok
  cases hdim : getDim vf with
  | error e =>
    rw [hdim] at hok
    simp at hok
  | ok d =>
  rw [hdim] at hok
  simp only at hok
  cases hpk : getPrimaryFieldSchema s with
  | error e =>
    rw [hpk] at hok
    simp at hok
  | ok pk =>
  rw [hpk] at hok
  simp only at hok
  injection hok with h'
  subst h'
  have hpkmem : pk ∈ s.fields := by
    simp only [getPrimaryFieldSchema] at hpk
    cases hfind : s.fields.find? (fun f => f.isPrimaryKey) with
    | none =>
      rw [hfind] at hpk
      cases hpk
    | some f =>
      rw [hfind] at hpk
      injection hpk with h2
      rw [← h2]
      exact List.mem_of_find?_eq_some hfind
  have hbaseiff : ∀ n fid,
      alistGet (keyedMap (fun f => f.name) (fun f => f.fieldID) s.fields) n = some fid ↔
        ∃ f, f ∈ s.fields ∧ f.name = n ∧ f.fieldID = fid :=
    fun n fid => keyedMap_get_iff hndn
  have hbasend : ((keyedMap (fun f => f.name) (fun f => f.fieldID) s.fields).map
      Prod.fst).Nodup := keyedMap_keys_nodup _ _ _
  have hid2 : ∀ n fid,
      (∃ f, f ∈ s.fields ∧ f.name = n ∧ f.fieldID = fid) →
      ∃ f, alistGet (keyedMap (fun f => f.fieldID) (fun f => f) s.fields) fid = some f ∧
        f.name = n ∧ f.fieldID = fid := by
    rintro n fid ⟨f, hf, hfn, hfid⟩
    exact ⟨f, (keyedMap_get_iff hndi).mpr ⟨f, hf, hfid, rfl⟩, hfn, hfid⟩
  cases hauto : pk.autoID with
  | true =>
    cases hdynf : getDynamicField s with
    | some df =>
      simp only [reduceIte]
      refine ⟨fun n fid => ?_, fun n fid hget => ?_, ?_, fun hnauto _ => by cases hnauto⟩
      · constructor
        · intro hget
          rcases alistGet_erase_some hget with ⟨hget1, hne1⟩
          rcases alistGet_erase_some hget1 with ⟨hget2, hne2⟩
          refine ⟨(hbaseiff n fid).mp hget2, ?_, ?_⟩
          · rintro ⟨_, hn⟩
            exact hne2 hn
          · intro df2 hdf2
            injection hdf2 with hdf2e
            rw [← hdf2e]
            exact hne1
        · rintro ⟨hex, hnpk, hndyn⟩
          have hne1 : n ≠ df.name := hndyn df rfl
          have hne2 : n ≠ pk.name := fun h => hnpk ⟨trivial, h⟩
          rw [alistGet_erase_of_ne hne1, alistGet_erase_of_ne hne2]
          exact (hbaseiff n fid).mpr hex
      · rcases alistGet_erase_some hget with ⟨hget1, _⟩
        rcases alistGet_erase_some hget1 with ⟨hget2, _⟩
        exact hid2 n fid ((hbaseiff n fid).mp hget2)
      · exact alistErase_keys_nodup _ _ (alistErase_keys_nodup _ _ hbasend)
    | none =>
      simp only [reduceIte]
      refine ⟨fun n fid => ?_, fun n fid hget => ?_, ?_, fun hnauto _ => by cases hnauto⟩
      · constructor
        · intro hget
          rcases alistGet_erase_some hget with ⟨hget2, hne2⟩
          refine ⟨(hbaseiff n fid).mp hget2, ?_, ?_⟩
          · rintro ⟨_, hn⟩
            exact hne2 hn
          · intro df2 hdf2
            cases hdf2
        · rintro ⟨hex, hnpk, _⟩
          have hne2 : n ≠ pk.name := fun h => hnpk ⟨trivial, h⟩
          rw [alistGet_erase_of_ne hne2]
          exact (hbaseiff n fid).mpr hex
      · rcases alistGet_erase_some hget with ⟨hget2, _⟩
        exact hid2 n fid ((hbaseiff n fid).mp hget2)
      · exact alistErase_keys_nodup _ _ hbasend
  | false =>
    cases hdynf : getDynamicField s with
    | some df =>
      simp only [reduceIte]
      refine ⟨fun n fid => ?_, fun n fid hget => ?_, ?_, fun _ hdynne => ?_⟩
      · constructor
        · intro hget
          rcases alistGet_erase_some hget with ⟨hget2, hne1⟩
          refine ⟨(hbaseiff n fid).mp hget2, ?_, ?_⟩
          · rintro ⟨hcontra, _⟩
            cases hcontra
          · intro df2 hdf2
            injection hdf2 with hdf2e
            rw [← hdf2e]
            exact hne1
        · rintro ⟨hex, _, hndyn⟩
          rw [alistGet_erase_of_ne (hndyn df rfl)]
          exact (hbaseiff n fid).mpr hex
      · rcases alistGet_erase_some hget with ⟨hget2, _⟩
        exact hid2 n fid ((hbaseiff n fid).mp hget2)
      · exact alistErase_keys_nodup _ _ hbasend
      · have hne : pk.name ≠ df.name := (hdynne df rfl).symm
        rw [alistGet_erase_of_ne hne]
        exact (hbaseiff pk.name pk.fieldID).mpr ⟨pk, hpkmem, rfl, rfl⟩
    | none =>
      simp only [reduceIte]
      refine ⟨fun n fid => ?_, fun n fid hget => ?_, ?_, fun _ _ => ?_⟩
      · constructor
        · intro hget
          refine ⟨(hbaseiff n fid).mp hget, ?_, ?_⟩
          · rintro ⟨hcontra, _⟩
            cases hcontra
          · intro df2 hdf2
            cases hdf2
        · rintro ⟨hex, _, _⟩
          exact (hbaseiff n fid).mpr hex
      · exact hid2 n fid ((hbaseiff n fid).mp hget)
      · exact hbasend
      · exact (hbaseiff pk.name pk.fieldID).mpr ⟨pk, hpkmem, rfl, rfl⟩

/-- Witness for C5: the sample schema constructs exactly the fixture index,
and the non-auto primary key `id` keeps its name-map entry. -/
theorem schema_index_name_map_witness :
    alistGet rDyn.name2FieldID "id" = some 1 :=
  (schema_index_name_map sampleSchema rDyn (by decide) (by decide) rfl).2.2.2 rfl
    (by
      intro df hdf
      injection hdf with h
      rw [← h]
      decide)

/-- C9 as stated is false: with fail-fast decoding the identity of the
reported error can depend on the iteration order; the same two-entry record
processed in its two orders yields two different TypeMismatch errors. -/
theorem decode_order_error_cex :
    ([(("a" : String), JValue.jstr "x"), (("b" : String), JValue.jstr "y")]).Perm
      [("b", JValue.jstr "y"), ("a", JValue.jstr "x")] ∧
    rNoDyn.Parse (.jobj [("a", .jstr "x"), ("b", .jstr "y")]) ≠
      rNoDyn.Parse (.jobj [("b", .jstr "y"), ("a", .jstr "x")]) := by
  refine ⟨List.Perm.swap _ _ _, ?_⟩
  have h1 : rNoDyn.Parse (.jobj [("a", .jstr "x"), ("b", .jstr "y")]) =
      .error (.typeError .int64 "a" .goString (.jstr "x")) := rfl
  have h2 : rNoDyn.Parse (.jobj [("b", .jstr "y"), ("a", .jstr "x")]) =
      .error (.typeError .int64 "b" .goString (.jstr "y")) := rfl
  rw [h1, h2]
  intro h
  injection h with h'
  injection h' with h1e h2e h3e h4e
  exact absurd h2e (by decide)

/-- C9 (amended): decoding is a pure function of the Schema Index and the
record (two runs agree definitionally); key matching is exact string
lookup; the success/failure verdict and, on success, the decoded Row as a
fieldID-to-value mapping do not depend on the iteration order of the
record's keys — only the identity of the reported error may. -/
theorem decode_deterministic_order_invariant (r : rowParser)
    (e₁ e₂ : List (String × JValue)) (hperm : e₁.Perm e₂)
    (hnd : (e₁.map Prod.fst).Nodup)
    (hinj : (r.name2FieldID.map Prod.snd).Nodup) :
    (∀ raw : JValue, r.Parse raw = r.Parse raw) ∧
    (∀ k : String, (∀ p ∈ r.name2FieldID, p.1 ≠ k) → alistGet r.name2FieldID k = none) ∧
    exOk (r.Parse (.jobj e₁)) = exOk (r.Parse (.jobj e₂)) ∧
    (∀ row₁ row₂, r.Parse (.jobj e₁) = .ok row₁ → r.Parse (.jobj e₂) = .ok row₂ →
      ∀ fid, rowGet row₁ fid = rowGet row₂ fid) := by
  have hpkeq : alistGet e₁ r.pkField.name = alistGet e₂ r.pkField.name :=
    alistGet_perm hperm hnd r.pkField.name
  have hloopiff : exOk (r.parseLoop e₁ [] []) = exOk (r.parseLoop e₂ [] []) := by
    apply bool_eq_of_iff
    rw [parseLoop_isOk_iff, parseLoop_isOk_iff]
    exact ⟨fun h kv hm => h kv (hperm.mem_iff.mpr hm),
      fun h kv hm => h kv (hperm.mem_iff.mp hm)⟩
  have hfind : ∀ fid : Int,
      (e₁.reverse.find? fun kv => decide (alistGet r.name2FieldID kv.1 = some fid)) =
        e₂.reverse.find? fun kv => decide (alistGet r.name2FieldID kv.1 = some fid) := by
    intro fid
    rw [find_eq_filter_head, find_eq_filter_head]
    have hpermr : (e₁.reverse).Perm e₂.reverse :=
      e₁.reverse_perm.trans (hperm.trans e₂.reverse_perm.symm)
    have hpermf := hpermr.filter fun kv => decide (alistGet r.name2FieldID kv.1 = some fid)
    have hexcl : (e₁.reverse).Pairwise fun a b =>
        ¬(decide (alistGet r.name2FieldID a.1 = some fid) = true ∧
          decide (alistGet r.name2FieldID b.1 = some fid) = true) := by
      have hndrev : (e₁.reverse.map Prod.fst).Nodup := by
        rw [List.map_reverse]
        exact List.nodup_reverse.mpr hnd
      have hpair : (e₁.reverse).Pairwise fun a b => a.1 ≠ b.1 := List.pairwise_map.mp hndrev
      refine hpair.imp ?_
      intro a b hne hcontra
      obtain ⟨hpa, hpb⟩ := hcontra
      have ha := of_decide_eq_true hpa
      have hb2 := of_decide_eq_true hpb
      exact hne (mem_snd_nodup_inj hinj (alistGet_eq_some_mem ha) (alistGet_eq_some_mem hb2))
    have hlen := filter_length_le_one
      (fun kv => decide (alistGet r.name2FieldID kv.1 = some fid)) e₁.reverse hexcl
    rw [perm_eq_of_length_le_one hpermf hlen]
  refine ⟨fun _ => rfl, fun k h => alistGet_eq_none_iff.mpr h, ?_, ?_⟩
  · rw [Parse_jobj_eq, Parse_jobj_eq, ← hpkeq]
    cases hb : (alistGet e₁ r.pkField.name).isSome && r.pkField.autoID with
    | true => rfl
    | false =>
      simp only [Bool.false_eq_true, if_false]
      cases hloop₁ : r.parseLoop e₁ [] [] with
      | error e1 =>
        cases hloop₂ : r.parseLoop e₂ [] [] with
        | error e2 => rfl
        | ok pr₂ =>
          exfalso
          rw [hloop₁, hloop₂] at hloopiff
          simp [exOk] at hloopiff
      | ok pr₁ =>
        cases hloop₂ : r.parseLoop e₂ [] [] with
        | error e2 =>
          exfalso
          rw [hloop₁, hloop₂] at hloopiff
          simp [exOk] at hloopiff
        | ok pr₂ =>
          obtain ⟨row₁', dyn₁⟩ := pr₁
          obtain ⟨row₂', dyn₂⟩ := pr₂
          have hget : ∀ fid, rowGet row₁' fid = rowGet row₂' fid := by
            intro fid
            rw [parseLoop_ok_rowGet r e₁ [] [] _ _ hloop₁ fid,
              parseLoop_ok_rowGet r e₂ [] [] _ _ hloop₂ fid, hfind fid]
          simp only
          rw [findMissing_congr row₁' row₂' r.name2FieldID hget]
          cases hfm : findMissing row₂' r.name2FieldID with
          | some n => rfl
          | none =>
            cases hd : r.dynamicField with
            | none => rfl
            | some df =>
              have hdyn₁ : dyn₁ =
                  e₁.filter fun kv => (alistGet r.name2FieldID kv.1).isNone := by
                simpa using parseLoop_ok_dyn r e₁ [] [] row₁' dyn₁ hloop₁
              have hdyn₂ : dyn₂ =
                  e₂.filter fun kv => (alistGet r.name2FieldID kv.1).isNone := by
                simpa using parseLoop_ok_dyn r e₂ [] [] row₂' dyn₂ hloop₂
              have hdperm : dyn₁.Perm dyn₂ := by
                rw [hdyn₁, hdyn₂]
                exact hperm.filter _
              by_cases hemp : dyn₁.isEmpty
              · have hemp₂ : dyn₂.isEmpty = true := by
                  cases hd₂ : dyn₂ with
                  | nil => rfl
                  | cons a t =>
                    rw [hd₂] at hdperm
                    cases hd₁ : dyn₁ with
                    | nil =>
                      rw [hd₁] at hdperm
                      exact absurd (hdperm.symm.eq_nil) (by simp)
                    | cons b t2 =>
                      rw [hd₁] at hemp
                      simp [List.isEmpty] at hemp
                simp [rowParser.combineDynamicRow, hd, hemp, hemp₂, exOk]
              · have hemp₂ : dyn₂.isEmpty = false := by
                  cases hd₂ : dyn₂ with
                  | cons a t => rfl
                  | nil =>
                    rw [hd₂] at hdperm
                    have := hdperm.eq_nil
                    rw [this] at hemp
                    simp [List.isEmpty] at hemp
                have hc₁ : exOk (r.combineDynamicRow dyn₁ row₁') =
                    exOk (r.parseEntity df.fieldID (.jobj dyn₁)) := by
                  simp only [rowParser.combineDynamicRow, hd, hemp, Bool.false_eq_true,
                    if_false]
                  cases r.parseEntity df.fieldID (.jobj dyn₁) <;> rfl
                have hc₂ : exOk (r.combineDynamicRow dyn₂ row₂') =
                    exOk (r.parseEntity df.fieldID (.jobj dyn₂)) := by
                  simp only [rowParser.combineDynamicRow, hd, hemp₂, Bool.false_eq_true,
                    if_false]
                  cases r.parseEntity df.fieldID (.jobj dyn₂) <;> rfl
                rw [hc₁, hc₂]
                apply bool_eq_of_iff
                rw [parseEntity_jobj_isOk, parseEntity_jobj_isOk]
  · intro row₁ row₂ hp1 hp2 fid
    rw [Parse_jobj_eq] at hp1 hp2
    rw [← hpkeq] at hp2
    cases hb : (alistGet e₁ r.pkField.name).isSome && r.pkField.autoID with
    | true =>
      rw [hb] at hp1
      simp at hp1
    | false =>
      rw [hb] at hp1 hp2
      simp only [Bool.false_eq_true, if_false] at hp1 hp2
      cases hloop₁ : r.parseLoop e₁ [] [] with
      | error e1 =>
        rw [hloop₁] at hp1
        simp at hp1
      | ok pr₁ =>
        cases hloop₂ : r.parseLoop e₂ [] [] with
        | error e2 =>
          rw [hloop₂] at hp2
          simp at hp2
        | ok pr₂ =>
          obtain ⟨row₁', dyn₁⟩ := pr₁
          obtain ⟨row₂', dyn₂⟩ := pr₂
          rw [hloop₁] at hp1
          rw [hloop₂] at hp2
          simp only at hp1 hp2
          have hget : ∀ fid, rowGet row₁' fid = rowGet row₂' fid := by
            intro fid
            rw [parseLoop_ok_rowGet r e₁ [] [] _ _ hloop₁ fid,
              parseLoop_ok_rowGet r e₂ [] [] _ _ hloop₂ fid, hfind fid]
          rw [findMissing_congr row₁' row₂' r.name2FieldID hget] at hp1
          cases hfm : findMissing row₂' r.name2FieldID with
          | some n =>
            rw [hfm] at hp1
            simp at hp1
          | none =>
            rw [hfm] at hp1 hp2
            cases hd : r.dynamicField with
            | none =>
              rw [hd] at hp1 hp2
              simp only at hp1 hp2
              injection hp1 with hw1
              injection hp2 with hw2
              rw [← hw1, ← hw2]
              exact hget fid
            | some df =>
              rw [hd] at hp1 hp2
              simp only at hp1 hp2
              have hdyn₁ : dyn₁ =
                  e₁.filter fun kv => (alistGet r.name2FieldID kv.1).isNone := by
                simpa using parseLoop_ok_dyn r e₁ [] [] row₁' dyn₁ hloop₁
              have hdyn₂ : dyn₂ =
                  e₂.filter fun kv => (alistGet r.name2FieldID kv.1).isNone := by
                simpa using parseLoop_ok_dyn r e₂ [] [] row₂' dyn₂ hloop₂
              have hdperm : dyn₁.Perm dyn₂ := by
                rw [hdyn₁, hdyn₂]
                exact hperm.filter _
              by_cases hemp : dyn₁.isEmpty
              · have hemp₂ : dyn₂.isEmpty = true := by
                  cases hd₂ : dyn₂ with
                  | nil => rfl
                  | cons a t =>
                    rw [hd₂] at hdperm
                    cases hd₁ : dyn₁ with
                    | nil =>
                      rw [hd₁] at hdperm
                      exact absurd (hdperm.symm.eq_nil) (by simp)
                    | cons b t2 =>
                      rw [hd₁] at hemp
                      simp [List.isEmpty] at hemp
                simp only [rowParser.combineDynamicRow, hd, hemp, hemp₂, if_true] at hp1 hp2
                injection hp1 with hw1
                injection hp2 with hw2
                rw [← hw1, ← hw2, rowGet_upsert, rowGet_upsert]
                by_cases hfid : df.fieldID = fid
                · simp [hfid]
                · simp [hfid, hget fid]
              · have hemp₂ : dyn₂.isEmpty = false := by
                  cases hd₂ : dyn₂ with
                  | cons a t => rfl
                  | nil =>
                    rw [hd₂] at hdperm
                    have hnil := hdperm.eq_nil
                    rw [hnil] at hemp
                    simp [List.isEmpty] at hemp
                simp only [rowParser.combineDynamicRow, hd, hemp, hemp₂, Bool.false_eq_true,
                  if_false] at hp1 hp2
                cases hpe₁ : r.parseEntity df.fieldID (.jobj dyn₁) with
                | error e =>
                  rw [hpe₁] at hp1
                  simp at hp1
                | ok data₁ =>
                  rw [hpe₁] at hp1
                  have hjson : r.fieldTypeOf df.fieldID = .json :=
                    (parseEntity_jobj_isOk r df.fieldID dyn₁).mp (by rw [hpe₁]; rfl)
                  have hdata₁ : data₁ = .vBytes (jsonSerialize (.jobj dyn₁)) := by
                    have hps := parseEntity_json_jobj r df.fieldID dyn₁ hjson
                    rw [hpe₁] at hps
                    injection hps with h'
                  have hpe₂ := parseEntity_json_jobj r df.fieldID dyn₂ hjson
                  rw [hpe₂] at hp2
                  have hser : jsonSerialize (.jobj dyn₁) = jsonSerialize (.jobj dyn₂) := by
                    apply jsonSerialize_jobj_congr
                    apply sortPairs_eq_of_perm hdperm
                    have hsub : (dyn₁.map Prod.fst).Sublist (e₁.map Prod.fst) := by
                      rw [hdyn₁]
                      exact (List.filter_sublist e₁).map Prod.fst
                    exact hnd.sublist hsub
                  injection hp1 with hw1
                  injection hp2 with hw2
                  rw [← hw1, ← hw2, rowGet_upsert, rowGet_upsert]
                  by_cases hfid : df.fieldID = fid
                  · simp [hfid, hdata₁, hser]
                  · simp [hfid, hget fid]

/-- Witness for C9 at a concrete Schema Index, record and permutation. -/
theorem decode_order_invariant_witness :
    exOk (rDyn.Parse (.jobj [("id", .jnum "1"), ("vec", .jarr [.jnum "1", .jnum "2"])])) =
      exOk (rDyn.Parse (.jobj [("vec", .jarr [.jnum "1", .jnum "2"]), ("id", .jnum "1")])) :=
  (decode_deterministic_order_invariant rDyn
    [("id", .jnum "1"), ("vec", .jarr [.jnum "1", .jnum "2"])]
    [("vec", .jarr [.jnum "1", .jnum "2"]), ("id", .jnum "1")]
    (List.Perm.swap _ _ _) (by decide) (by decide)).2.2.1
